import Mathlib

/-!
Verification development for the proof-of-ownership verification engine of
the zroop-agent-bot repository.

The development shallowly embeds the core of the engine:

* the chain-transaction locator of src/backend/services/proofChecker.ts
  (address validation, the GraphQL page-fetch with primary/fallback retry
  loops, the per-page match scan, the pagination early-exit, and the
  top-level ownership check), and
* the task scheduler of src/backend/server.ts together with the task-store
  queries of src/backend/database/db.ts (the reap phase, the work phase,
  attempt counting, status/error-message writes, and the re-entrancy
  guards).

Network interactions (GraphQL responses, block-timestamp resolution, wallet
decryption, wallet-link reads) are modelled as explicit oracle parameters;
everything else is translated directly from the TypeScript source.
-/

namespace Zroop

/-! ### Address validation (proofChecker.ts, line 21) -/

/-- Test for a hexadecimal digit, as matched by the character class of the
address regex in proofChecker.ts. -/
def isHexDigitChar (c : Char) : Bool :=
  ('0' ≤ c && c ≤ '9') || ('a' ≤ c && c ≤ 'f') || ('A' ≤ c && c ≤ 'F')

/-- Model of isValidEvmAddress from proofChecker.ts: the string must be the
two characters 0x followed by exactly 40 hexadecimal digits. -/
def isValidEvmAddress (addr : String) : Bool :=
  match addr.data with
  | '0' :: 'x' :: rest => rest.length == 40 && rest.all isHexDigitChar
  | _ => false

/-! ### String helpers

Kernel-reducible models of the JavaScript string methods toLowerCase and
trim used by proofChecker.ts (restricted to the ASCII strings that occur in
the engine). -/

/-- Character-wise lower-casing, modelling the toLowerCase call applied to
wallet addresses. -/
def toLowerStr (s : String) : String := ⟨s.data.map Char.toLower⟩

/-- Whitespace test used by the trim model. -/
def isWsChar (c : Char) : Bool := c == ' ' || c == '\t' || c == '\n' || c == '\r'

/-- Model of the trim call applied to wallet addresses: drops whitespace
from both ends of the string. -/
def trimStr (s : String) : String :=
  ⟨((s.data.dropWhile isWsChar).reverse.dropWhile isWsChar).reverse⟩

/-! ### Transaction records and the per-page match scan
(findProofTransactionGraphQL, proofChecker.ts lines 295-376) -/

/-- A transaction node as delivered by one edge of the explorer GraphQL
response.  blockTimestamp models the optional block - timestamp object of
the primary query shape (already parsed to unix seconds); blockNumber
models the blockNumber field relied upon by the fallback path. -/
structure TxNode where
  hash : String
  fromAddressHash : String
  toAddressHash : String
  value : String
  status : String
  blockTimestamp : Option Nat
  blockNumber : Option Nat
deriving DecidableEq, Repr

/-- Resolution of the block timestamp of one transaction, following the
per-transaction branch of the scan loop: on the fallback path the
timestamp is fetched per block number through the oracle resolveTs
(modelling getTimestampForBlockGraphQL, which may fail and yield none); on
the primary path it is read from the node itself (and is absent when the
node misses the block - timestamp object). -/
def resolveTxTimestamp (useFallback : Bool) (resolveTs : Nat → Option Nat)
    (tx : TxNode) : Option Nat :=
  if useFallback then
    match tx.blockNumber with
    | none => none
    | some bn => resolveTs bn
  else tx.blockTimestamp

/-- The match criteria of the scan loop, translated clause by clause from
the criteria check of findProofTransactionGraphQL: from address equals the
user wallet (both lower-cased), to address equals the target wallet (both
lower-cased), status is OK, and the resolved timestamp lies in the window.
The wallet arguments are the already lower-cased wallets computed at the
top of the function. -/
def txMatches (userWalletLower targetWalletLower : String)
    (afterTimestamp deadlineTimestamp : Nat) (tx : TxNode) (ts : Nat) : Bool :=
  toLowerStr tx.fromAddressHash == userWalletLower &&
  toLowerStr tx.toAddressHash == targetWalletLower &&
  tx.status == "OK" &&
  (afterTimestamp ≤ ts) && (ts < deadlineTimestamp)

/-- The four-clause match predicate exactly as worded by the specification,
on one edge of a page: the edge carries a node, its from address equals the
user wallet case-insensitively, its to address equals the target wallet
case-insensitively, its status equals OK, and its resolved block timestamp
t satisfies afterTimestamp ≤ t < deadline.  Stated over the raw (not
pre-lowered) wallets; used to compare the code's scan against the
specification. -/
def specMatchEdge (userWallet targetWallet : String)
    (afterTimestamp deadlineTimestamp : Nat) (useFallback : Bool)
    (resolveTs : Nat → Option Nat) (edge : Option TxNode) : Bool :=
  match edge with
  | none => false
  | some tx =>
    match resolveTxTimestamp useFallback resolveTs tx with
    | none => false
    | some ts =>
      toLowerStr tx.fromAddressHash == toLowerStr userWallet &&
      toLowerStr tx.toAddressHash == toLowerStr targetWallet &&
      tx.status == "OK" &&
      (afterTimestamp ≤ ts) && (ts < deadlineTimestamp)

/-- The scan over the edges of one page, in original page order
(findProofTransactionGraphQL lines 295-376): null edges are skipped,
transactions whose timestamp cannot be resolved are skipped, and the first
transaction meeting the match criteria terminates the scan, returning the
node together with its resolved timestamp. -/
def scanPage (userWalletLower targetWalletLower : String)
    (afterTimestamp deadlineTimestamp : Nat) (useFallback : Bool)
    (resolveTs : Nat → Option Nat) : List (Option TxNode) → Option (TxNode × Nat)
  | [] => none
  | none :: rest =>
      scanPage userWalletLower targetWalletLower afterTimestamp deadlineTimestamp
        useFallback resolveTs rest
  | some tx :: rest =>
      match resolveTxTimestamp useFallback resolveTs tx with
      | none =>
          scanPage userWalletLower targetWalletLower afterTimestamp deadlineTimestamp
            useFallback resolveTs rest
      | some ts =>
          if txMatches userWalletLower targetWalletLower afterTimestamp
              deadlineTimestamp tx ts then
            some (tx, ts)
          else
            scanPage userWalletLower targetWalletLower afterTimestamp deadlineTimestamp
              useFallback resolveTs rest

/-! ### Page fetching with primary/fallback retry loops
(findProofTransactionGraphQL, proofChecker.ts lines 183-279) -/

/-- Pagination info of one page of the GraphQL response. -/
structure PageInfo where
  hasNextPage : Bool
  endCursor : Option String
deriving DecidableEq, Repr

/-- The data part of a successful transactions response: the edges list
(possibly containing null edges) and the optional pageInfo object. -/
structure PageData where
  edges : List (Option TxNode)
  pageInfo : Option PageInfo
deriving DecidableEq, Repr

/-- Outcome of one HTTP attempt of a GraphQL page query, covering the cases
distinguished by the retry loops: a usable response carrying edges; a
GraphQL error body containing an internal server error message; a GraphQL
error body of any other kind; a well-formed response without the expected
data (no edges structure); an HTTP error with status 500; and any other
transport-level error (timeout, network failure, non-500 status). -/
inductive AttemptOutcome where
  | ok (d : PageData)
  | gqlInternalError
  | gqlOtherError
  | noData
  | http500
  | httpOther
deriving DecidableEq, Repr

/-- Result of the primary-query attempt loop: a page of data, a switch to
the fallback query, or exhaustion of all attempts. -/
inductive PrimaryLoopResult where
  | gotData (d : PageData)
  | fallback
  | exhausted
deriving DecidableEq, Repr

/-- The primary-query attempt loop (lines 187-233): each attempt either
yields data (loop ends), triggers the fallback (on a GraphQL internal
server error or an HTTP 500), or is retried; when the attempt budget (the
argument list) is exhausted without data or fallback trigger, the loop
reports exhaustion. -/
def primaryLoop : List AttemptOutcome → PrimaryLoopResult
  | [] => .exhausted
  | o :: rest =>
    match o with
    | .ok d => .gotData d
    | .gqlInternalError => .fallback
    | .http500 => .fallback
    | .gqlOtherError => primaryLoop rest
    | .noData => primaryLoop rest
    | .httpOther => primaryLoop rest

/-- Result of the fallback-query attempt loop: a page of data or
exhaustion. -/
inductive FallbackLoopResult where
  | gotData (d : PageData)
  | exhausted
deriving DecidableEq, Repr

/-- The fallback-query attempt loop (lines 241-279): each attempt either
yields data or is retried, with no further fallback on any kind of
failure; when the attempt budget is exhausted without data the loop
reports exhaustion. -/
def fallbackLoop : List AttemptOutcome → FallbackLoopResult
  | [] => .exhausted
  | o :: rest =>
    match o with
    | .ok d => .gotData d
    | _ => fallbackLoop rest

/-- Result of fetching one page: data together with the flag recording
whether the fallback query produced it, or failure of the page fetch (which
makes findProofTransactionGraphQL give up and return null). -/
inductive PageFetchResult where
  | ok (d : PageData) (usedFallback : Bool)
  | failed
deriving DecidableEq, Repr

/-- Fetching one page: run the primary loop; on data, the page is fetched
via the primary path; on exhaustion, the page fetch fails without
consulting the fallback (lines 235-238); on a fallback trigger, run the
fallback loop, whose exhaustion fails the page fetch (lines 275-278). -/
def fetchPage (primaryOutcomes fallbackOutcomes : List AttemptOutcome) :
    PageFetchResult :=
  match primaryLoop primaryOutcomes with
  | .gotData d => .ok d false
  | .exhausted => .failed
  | .fallback =>
    match fallbackLoop fallbackOutcomes with
    | .gotData d => .ok d true
    | .exhausted => .failed

/-- Truthiness of the endCursor value as tested by the pagination guard
(an absent cursor and the empty string are both falsy in TypeScript). -/
def cursorTruthy : Option String → Bool
  | none => false
  | some c => !(c == "")

/-- The pagination decision at the end of one page iteration
(findProofTransactionGraphQL lines 382-400): continue with the reported
endCursor when the explorer reports a next page and a truthy cursor, except
that on the primary path, when the last transaction node of the page
carries a block timestamp strictly below afterTimestamp, the cursor is
cleared and pagination stops; the early exit is skipped on the fallback
path.  Returns the cursor for the next page, or none to stop. -/
def nextCursorDecision (afterTimestamp : Nat) (useFallback : Bool)
    (edges : List (Option TxNode)) (pageInfo : Option PageInfo) : Option String :=
  match pageInfo with
  | none => none
  | some pi =>
    if pi.hasNextPage && cursorTruthy pi.endCursor then
      if !useFallback && !edges.isEmpty then
        match edges.getLast? with
        | some (some lastTx) =>
          match lastTx.blockTimestamp with
          | some lastTs =>
            if lastTs < afterTimestamp then none else pi.endCursor
          | none => pi.endCursor
        | _ => pi.endCursor
      else pi.endCursor
    else none

/-- The transaction record built by findProofTransactionGraphQL when a
matching transaction is found. -/
structure ProofTransaction where
  hash : String
  fromAddr : String
  toAddr : String
  blockNumber : Option Nat
  timestamp : Nat
deriving DecidableEq, Repr

/-- Construction of the result record from the matched node and its
resolved timestamp (lines 364-370). -/
def mkProofTransaction (tx : TxNode) (ts : Nat) : ProofTransaction :=
  { hash := tx.hash
    fromAddr := tx.fromAddressHash
    toAddr := tx.toAddressHash
    blockNumber := tx.blockNumber
    timestamp := ts }

/-- What the explorer serves for one step of the pagination loop: the
outcome sequences of the primary and fallback attempt loops for that
page. -/
structure PageSpec where
  primaryOutcomes : List AttemptOutcome
  fallbackOutcomes : List AttemptOutcome
deriving DecidableEq, Repr

/-- The pagination loop of findProofTransactionGraphQL (lines 177-410),
walking the successive page specifications served by the explorer: each
iteration fetches a page (a failed fetch aborts the whole search with
null), scans its edges in original order, returns the first match as the
resulting proof transaction, and otherwise continues with the next page
exactly when the pagination decision yields a cursor. -/
def runLocator (userWalletLower targetWalletLower : String)
    (afterTimestamp deadlineTimestamp : Nat) (resolveTs : Nat → Option Nat) :
    List PageSpec → Option ProofTransaction
  | [] => none
  | ps :: rest =>
    match fetchPage ps.primaryOutcomes ps.fallbackOutcomes with
    | .failed => none
    | .ok d usedFallback =>
      match scanPage userWalletLower targetWalletLower afterTimestamp
          deadlineTimestamp usedFallback resolveTs d.edges with
      | some res => some (mkProofTransaction res.1 res.2)
      | none =>
        match nextCursorDecision afterTimestamp usedFallback d.edges d.pageInfo with
        | some _ =>
            runLocator userWalletLower targetWalletLower afterTimestamp
              deadlineTimestamp resolveTs rest
        | none => none

/-! ### The top-level ownership check (checkOwnershipAfter,
proofChecker.ts lines 462-504) -/

/-- The result shape of checkOwnershipAfter. -/
structure ProofResult where
  isProofConfirmed : Bool
  txHash : Option String
  error : Option String
deriving DecidableEq, Repr

/-- One run of the ownership check, recording both the returned result and
whether the chain search (a network interaction) was reached. -/
structure OwnershipCheckRun where
  result : ProofResult
  networkCalled : Bool
deriving DecidableEq, Repr

/-- Model of checkOwnershipAfter: the user wallet is trimmed and
lower-cased; an empty target wallet, an invalid (normalised) user wallet,
an invalid target wallet, and an inverted time window each return a
not-confirmed result with a reason, before any network interaction; only
when all preconditions hold is the search oracle consulted, and a found
transaction confirms the proof with its hash.  The TypeScript function
catches every exception of the search and converts it into a not-confirmed
result, so the model is a total function. -/
def checkOwnershipAfter
    (search : String → String → Nat → Nat → Option ProofTransaction)
    (walletHash : String) (afterTimestamp deadlineTimestamp : Nat)
    (targetWalletAddress : String) : OwnershipCheckRun :=
  let userWallet := toLowerStr (trimStr walletHash)
  if targetWalletAddress == "" then
    ⟨⟨false, none, some "targetWalletAddress is not defined"⟩, false⟩
  else if !isValidEvmAddress userWallet then
    ⟨⟨false, none, some "Invalid user EVM address"⟩, false⟩
  else if !isValidEvmAddress targetWalletAddress then
    ⟨⟨false, none, some "Invalid target wallet address"⟩, false⟩
  else if deadlineTimestamp ≤ afterTimestamp then
    ⟨⟨false, none, some "Invalid time window"⟩, false⟩
  else
    match search userWallet targetWalletAddress afterTimestamp deadlineTimestamp with
    | some tx => ⟨⟨true, some tx.hash, none⟩, true⟩
    | none => ⟨⟨false, none, some "Proof transaction not found via GraphQL"⟩, true⟩

/-! ### The task store (db.ts) -/

/-- The status enumeration of a proof task (db.ts schema). -/
inductive TaskStatus where
  | pending
  | processing
  | success
  | failed_no_tx
  | expired
  | error
  | cancelled
deriving DecidableEq, BEq, Repr

/-- A status is terminal when the scheduler is done with the task. -/
def TaskStatus.isTerminal : TaskStatus → Bool
  | .success => true
  | .failed_no_tx => true
  | .expired => true
  | .error => true
  | .cancelled => true
  | .pending => false
  | .processing => false

/-- The status set selected by both scheduler queries, matching the SQL
predicate status IN (pending, processing). -/
def isActiveStatus (s : TaskStatus) : Bool := s == .pending || s == .processing

/-- One row of the proof_tasks table, with the columns the scheduler reads
and writes.  The created_at audit column is modelled as a number so that
the ORDER BY comparison is available; the updated_at column, maintained by
a database trigger, is not modelled. -/
structure ProofTask where
  task_uid : String
  telegram_id : String
  wallet_address_encrypted : String
  after_timestamp : Nat
  check_deadline_utc : Nat
  status : TaskStatus
  attempts : Nat
  found_tx_hash : Option String
  error_message : Option String
  last_checked_block : Option Nat
  created_at : Nat
deriving DecidableEq, Repr

/-- The optional details accepted by updateProofTaskStatus; a field that is
none is not mentioned in the UPDATE statement and leaves the column
unchanged. -/
structure StatusDetails where
  foundTxHash : Option String
  errorMessage : Option String
  lastCheckedBlock : Option Nat
deriving DecidableEq, Repr

/-- No details: only the status column is written. -/
def noDetails : StatusDetails := ⟨none, none, none⟩

/-- Details carrying only an error message. -/
def msgDetails (m : String) : StatusDetails := ⟨none, some m, none⟩

/-- Details carrying only a found transaction hash (the scheduler passes
the hash of the confirmed proof transaction, which is present whenever the
check confirms). -/
def txDetails (h : Option String) : StatusDetails := ⟨h, none, none⟩

/-- Effect of the UPDATE statement of updateProofTaskStatus on one matching
row. -/
def applyStatusUpdate (st : TaskStatus) (d : StatusDetails) (t : ProofTask) : ProofTask :=
  { t with
    status := st
    found_tx_hash := match d.foundTxHash with | some h => some h | none => t.found_tx_hash
    error_message := match d.errorMessage with | some m => some m | none => t.error_message
    last_checked_block :=
      match d.lastCheckedBlock with | some b => some b | none => t.last_checked_block }

/-- An UPDATE ... WHERE task_uid = uid over the task list: every row whose
task_uid matches is transformed by g (the schema declares task_uid UNIQUE,
which the theorems carry as a pairwise-distinct hypothesis). -/
def updTask (uid : String) (g : ProofTask → ProofTask) (tasks : List ProofTask) :
    List ProofTask :=
  tasks.map fun t => if t.task_uid = uid then g t else t

/-- Model of updateProofTaskStatus (db.ts lines 544-576). -/
def updateProofTaskStatus (tasks : List ProofTask) (uid : String)
    (st : TaskStatus) (d : StatusDetails) : List ProofTask :=
  updTask uid (applyStatusUpdate st d) tasks

/-- Model of updateProofTaskAttempts (db.ts lines 627-630): sets the
attempts column of the matching row. -/
def updateProofTaskAttempts (tasks : List ProofTask) (uid : String) (n : Nat) :
    List ProofTask :=
  updTask uid (fun t => { t with attempts := n }) tasks

/-- Model of getStuckAndExpiredTasks (db.ts lines 605-619): rows with
status pending or processing whose deadline is strictly below the given
time. -/
def getStuckAndExpiredTasks (nowUtc : Nat) (tasks : List ProofTask) : List ProofTask :=
  tasks.filter fun t => isActiveStatus t.status && t.check_deadline_utc < nowUtc

/-- Insertion step of the ORDER BY created_at ASC model. -/
def insertByCreatedAt (t : ProofTask) : List ProofTask → List ProofTask
  | [] => [t]
  | u :: us =>
    if t.created_at ≤ u.created_at then t :: u :: us else u :: insertByCreatedAt t us

/-- Stable sort by created_at ascending, modelling the ORDER BY clause of
findProcessableTasks. -/
def sortByCreatedAt : List ProofTask → List ProofTask
  | [] => []
  | t :: ts => insertByCreatedAt t (sortByCreatedAt ts)

/-- Model of findProcessableTasks (db.ts lines 581-591): rows with status
pending or processing whose deadline is strictly above the given time,
ordered oldest-created-first, limited to the given batch size. -/
def findProcessableTasks (nowUtc : Nat) (limit : Nat) (tasks : List ProofTask) :
    List ProofTask :=
  (sortByCreatedAt
    (tasks.filter fun t => isActiveStatus t.status && nowUtc < t.check_deadline_utc)).take
    limit

/-- One row of the wallets table, as seen by the scheduler: the decrypted
wallet address, the proofed flag and the denormalised raw telegram id. -/
structure WalletLink where
  wallet : String
  proofed : Bool
  raw_telegram_id : Option String
deriving DecidableEq, Repr

/-- The mutable state the scheduler acts on: the proof_tasks rows and the
wallets rows (keyed by telegram id; the hashing of the key by the external
crypto collaborator is injective and elided). -/
structure SchedState where
  tasks : List ProofTask
  links : List (String × WalletLink)
deriving DecidableEq, Repr

/-- Model of getWallet (db.ts line 188): the wallet row of the given user,
if any. -/
def getWalletLink (s : SchedState) (tid : String) : Option WalletLink :=
  (s.links.find? fun p => p.1 == tid).map Prod.snd

/-- Truthiness of an optional string field (absent and empty are falsy). -/
def optStrTruthy : Option String → Bool
  | none => false
  | some r => !(r == "")

/-- Model of saveWalletLink (db.ts lines 158-182): an upsert keyed by the
user, storing the lower-cased wallet, the proofed flag, and the raw
telegram id (defaulting to the key itself when not passed). -/
def saveWalletLink (s : SchedState) (tid wallet : String) (proofed : Bool)
    (raw : Option String) : SchedState :=
  let link : WalletLink := ⟨toLowerStr wallet, proofed, some (raw.getD tid)⟩
  if (s.links.find? fun p => p.1 == tid).isSome then
    { s with links := s.links.map fun p => if p.1 == tid then (tid, link) else p }
  else
    { s with links := s.links ++ [(tid, link)] }

/-! ### The task scheduler (ProofVerificationService, server.ts lines
916-1080) -/

/-- The retry ceiling for task attempts (crypto.ts line 156). -/
def PROOF_RETRY_LIMIT : Nat := 7

/-- Diagnostic written by the reap phase. -/
def msgAutoExpired : String := "Task auto-expired by cleanup."

/-- Diagnostic written when the deadline passed between the batch read and
the processing of the task. -/
def msgDeadlineBeforeProcessing : String := "Deadline passed before processing attempt."

/-- Diagnostic written on the already-proofed short-circuit. -/
def msgAlreadyProofed : String := "Wallet already proofed."

/-- Diagnostic written when the challenge wallet is not configured. -/
def msgCheckWalletMissing : String := "CHECK_WALLET not configured on server"

/-- Diagnostic written when wallet decryption fails. -/
def msgDecryptFailed : String := "Internal error: Failed to decrypt wallet address"

/-- Diagnostic written when the proof was not found and the deadline has
passed. -/
def msgDeadlinePassed : String := "Deadline passed, proof not found."

/-- Diagnostic written when the proof was not found and the retry ceiling
is reached, interpolating the ceiling and the attempt count. -/
def msgMaxRetry (limit attempts : Nat) : String :=
  "Max retry limit (" ++ toString limit ++ ") reached. Attempts: " ++ toString attempts

/-- The environment of one scheduler cycle: the wall-clock reads (one per
code location that calls Date.now), the wallet decryption oracle, the
configured challenge wallet, and the ownership-check oracle standing for
checkZeroTxProof, which catches all its exceptions and returns a plain
result. -/
structure SchedulerEnv where
  nowReap : Nat
  nowDb : Nat
  nowWork : Nat
  nowInner : Nat
  decryptWallet : String → Option String
  checkWallet : Option String
  proofCheck : String → Nat → Nat → String → ProofResult

/-- Model of processSingleTask (server.ts lines 1019-1080): abort to error
when the challenge wallet is unset; otherwise write status processing,
increment the attempts column to the batch snapshot value plus one, decrypt
the stored wallet (failure is a fatal task error), invoke the ownership
check, and dispatch on its outcome: confirmed writes the wallet link and
status success with the transaction hash; otherwise a passed deadline
writes expired, a reached retry ceiling writes failed_no_tx, and otherwise
the task stays in processing for the next cycle. -/
def processSingleTask (env : SchedulerEnv) (task : ProofTask) (s : SchedState) :
    SchedState :=
  match env.checkWallet with
  | none =>
    { s with tasks :=
        updateProofTaskStatus s.tasks task.task_uid .error (msgDetails msgCheckWalletMissing) }
  | some cw =>
    let s1 := { s with tasks :=
        updateProofTaskStatus s.tasks task.task_uid .processing noDetails }
    let newAttempts := task.attempts + 1
    let s2 := { s1 with tasks :=
        updateProofTaskAttempts s1.tasks task.task_uid newAttempts }
    match env.decryptWallet task.wallet_address_encrypted with
    | none =>
      { s2 with tasks :=
          updateProofTaskStatus s2.tasks task.task_uid .error (msgDetails msgDecryptFailed) }
    | some decrypted =>
      let pr := env.proofCheck decrypted task.after_timestamp task.check_deadline_utc cw
      if pr.isProofConfirmed then
        let s3 := saveWalletLink s2 task.telegram_id decrypted true (some task.telegram_id)
        { s3 with tasks :=
            updateProofTaskStatus s3.tasks task.task_uid .success (txDetails pr.txHash) }
      else if task.check_deadline_utc ≤ env.nowInner then
        { s2 with tasks :=
            updateProofTaskStatus s2.tasks task.task_uid .expired (msgDetails msgDeadlinePassed) }
      else if PROOF_RETRY_LIMIT ≤ newAttempts then
        let d := msgDetails (msgMaxRetry PROOF_RETRY_LIMIT newAttempts)
        { s2 with tasks :=
            updateProofTaskStatus s2.tasks task.task_uid .failed_no_tx d }
      else s2

/-- The per-task body of the work-phase loop (server.ts lines 988-1010):
a task whose deadline passed since the batch read is expired; a user whose
wallet link is already proofed short-circuits the task to success (with a
diagnostic noting the short-circuit) and backfills the missing raw
telegram id on the link; otherwise the task is dispatched to
processSingleTask. -/
def workOne (env : SchedulerEnv) (task : ProofTask) (s : SchedState) : SchedState :=
  if task.check_deadline_utc ≤ env.nowWork then
    let d := msgDetails msgDeadlineBeforeProcessing
    { s with tasks := updateProofTaskStatus s.tasks task.task_uid .expired d }
  else
    match getWalletLink s task.telegram_id with
    | some link =>
      if link.proofed then
        let s1 := { s with tasks :=
            updateProofTaskStatus s.tasks task.task_uid .success (msgDetails msgAlreadyProofed) }
        if !optStrTruthy link.raw_telegram_id && optStrTruthy (some link.wallet) then
          saveWalletLink s1 task.telegram_id link.wallet true (some task.telegram_id)
        else s1
      else processSingleTask env task s
    | none => processSingleTask env task s

/-- The body of the work phase (processPendingTasks, server.ts lines
979-1015, inside the guard and the try block): read a batch of up to ten
processable tasks and process them sequentially. -/
def processPendingTasksBody (env : SchedulerEnv) (s : SchedState) : SchedState :=
  (findProcessableTasks env.nowDb 10 s.tasks).foldl (fun st task => workOne env task st) s

/-- The body of the reap phase (handleStuckOrExpiredTasks, server.ts lines
957-977, inside the guard and the try block): every stuck or expired task
still in an active status is set to expired with a diagnostic. -/
def handleStuckOrExpiredTasksBody (env : SchedulerEnv) (s : SchedState) : SchedState :=
  (getStuckAndExpiredTasks env.nowReap s.tasks).foldl
    (fun st task =>
      if isActiveStatus task.status then
        { st with tasks :=
            updateProofTaskStatus st.tasks task.task_uid .expired (msgDetails msgAutoExpired) }
      else st)
    s

/-- One full scheduler cycle (runFullCycle, server.ts lines 950-955): the
reap phase completes before the work phase begins. -/
def runFullCycle (env : SchedulerEnv) (s : SchedState) : SchedState :=
  processPendingTasksBody env (handleStuckOrExpiredTasksBody env s)

/-- One invocation of a guarded phase, modelling the common structure of
handleStuckOrExpiredTasks and processPendingTasks: when the re-entrancy
flag is set the invocation returns immediately (the tick is skipped and the
state untouched); otherwise the flag is set, the body runs inside a
try-catch whose catch only logs (an exception surfaces here as the error
variant, carrying the partially-written state), and the flag is reset on
the line after the try-catch, which runs on both outcomes.  Returns the
final flag value and state. -/
def guardedInvocation (flag : Bool)
    (body : SchedState → Except SchedState SchedState) (s : SchedState) :
    Bool × SchedState :=
  if flag then (flag, s)
  else
    match body s with
    | .ok s1 => (false, s1)
    | .error s1 => (false, s1)

/-- The reap phase as invoked by the timer, with its isCleaningUp guard
(server.ts lines 957-977). -/
def handleStuckOrExpiredTasksRun (isCleaningUp : Bool)
    (body : SchedState → Except SchedState SchedState) (s : SchedState) :
    Bool × SchedState :=
  guardedInvocation isCleaningUp body s

/-- The work phase as invoked by the timer, with its isProcessingCycle
guard (server.ts lines 979-1015). -/
def processPendingTasksRun (isProcessingCycle : Bool)
    (body : SchedState → Except SchedState SchedState) (s : SchedState) :
    Bool × SchedState :=
  guardedInvocation isProcessingCycle body s

/-! ### Derived row transforms

The scheduler only ever writes a task row through updateProofTaskStatus and
updateProofTaskAttempts, keyed by task_uid.  The following functions
recompose, per scheduler branch, the net effect of one dispatch on the row
of the dispatched task; the row-level lemmas below prove that the scheduler
state functions agree with them. -/

/-- Net effect of processSingleTask on the row of the dispatched task,
given the batch snapshot task of that row. -/
def psTransform (env : SchedulerEnv) (task : ProofTask) (t : ProofTask) : ProofTask :=
  match env.checkWallet with
  | none => applyStatusUpdate .error (msgDetails msgCheckWalletMissing) t
  | some cw =>
    let t2 := { applyStatusUpdate .processing noDetails t with attempts := task.attempts + 1 }
    match env.decryptWallet task.wallet_address_encrypted with
    | none => applyStatusUpdate .error (msgDetails msgDecryptFailed) t2
    | some w =>
      let pr := env.proofCheck w task.after_timestamp task.check_deadline_utc cw
      if pr.isProofConfirmed then
        applyStatusUpdate .success (txDetails pr.txHash) t2
      else if task.check_deadline_utc ≤ env.nowInner then
        applyStatusUpdate .expired (msgDetails msgDeadlinePassed) t2
      else if PROOF_RETRY_LIMIT ≤ task.attempts + 1 then
        applyStatusUpdate .failed_no_tx (msgDetails (msgMaxRetry PROOF_RETRY_LIMIT (task.attempts + 1))) t2
      else t2

/-- Net effect of one work-phase dispatch on the row of the dispatched
task, given the wallet link of the owning user at dispatch time. -/
def workOneTransform (env : SchedulerEnv) (task : ProofTask) (link : Option WalletLink)
    (t : ProofTask) : ProofTask :=
  if task.check_deadline_utc ≤ env.nowWork then
    applyStatusUpdate .expired (msgDetails msgDeadlineBeforeProcessing) t
  else
    match link with
    | some l =>
      if l.proofed then applyStatusUpdate .success (msgDetails msgAlreadyProofed) t
      else psTransform env task t
    | none => psTransform env task t

/-- Net effect of one reap-phase dispatch on the row of the dispatched
task. -/
def reapTransform (task : ProofTask) (t : ProofTask) : ProofTask :=
  if isActiveStatus task.status then
    applyStatusUpdate .expired (msgDetails msgAutoExpired) t
  else t

/-- The task_uid column of every row, in row order. -/
def taskUids (l : List ProofTask) : List String := l.map ProofTask.task_uid

/-- The UNIQUE constraint of the task_uid column, as a hypothesis on the
modelled row list. -/
def UidsDistinct (l : List ProofTask) : Prop :=
  l.Pairwise fun a b => a.task_uid ≠ b.task_uid

/-- The status/message combinations with which the scheduler ever writes
the error_message column of a row: the fatal errors, the two expiry paths
and the reap path, the retry-ceiling failure, and the already-proofed
success short-circuit. -/
def AllowedErrWrite (u : ProofTask) : Prop :=
  (u.status = .error ∧ (u.error_message = some msgCheckWalletMissing ∨
    u.error_message = some msgDecryptFailed)) ∨
  (u.status = .expired ∧ (u.error_message = some msgAutoExpired ∨
    u.error_message = some msgDeadlineBeforeProcessing ∨
    u.error_message = some msgDeadlinePassed)) ∨
  (u.status = .failed_no_tx ∧ ∃ n, u.error_message = some (msgMaxRetry PROOF_RETRY_LIMIT n)) ∨
  (u.status = .success ∧ u.error_message = some msgAlreadyProofed)

/-! ### Concrete instances used by witnesses and counterexamples -/

/-- A scheduler environment for concrete runs: all clocks at 100, a
decryption oracle that succeeds, a configured challenge wallet, and an
ownership check that does not confirm. -/
def witEnv : SchedulerEnv :=
  ⟨100, 100, 100, 100, fun _ => some "0xw", some "0xcw",
    fun _ _ _ _ => ⟨false, none, some "Proof transaction not found via GraphQL"⟩⟩

/-- A task already in a terminal status. -/
def witTaskTerm : ProofTask :=
  ⟨"t1", "u1", "e1", 0, 200, .success, 3, some "h", none, none, 1⟩

/-- A pending task with a live deadline. -/
def witTaskPend : ProofTask :=
  ⟨"t2", "u2", "e2", 0, 200, .pending, 0, none, none, none, 2⟩

/-- A pending task whose deadline equals the cycle clock. -/
def witTaskBoundary : ProofTask :=
  ⟨"t3", "u3", "e3", 0, 100, .pending, 0, none, none, none, 3⟩

/-- A processing task whose deadline has already passed the inner clock. -/
def witTaskOld : ProofTask :=
  ⟨"t4", "u4", "e4", 0, 50, .processing, 2, none, none, none, 4⟩

/-- A pending task owned by a user with an already-proofed wallet link. -/
def cexTaskC8 : ProofTask :=
  ⟨"t5", "u5", "e5", 0, 200, .pending, 0, none, none, none, 5⟩

/-- The already-proofed wallet link of that user. -/
def cexLinkC8 : WalletLink := ⟨"0xw5", true, some "u5"⟩

/-- The scheduler state holding that task and that link. -/
def cexStateC8 : SchedState := ⟨[cexTaskC8], [("u5", cexLinkC8)]⟩

/-- A transaction node matching the criteria for user wallet u and target
wallet t (case-insensitively: its from address is upper-case). -/
def witTxC1 : TxNode := ⟨"0xh1", "U", "T", "0", "OK", some 50, some 7⟩

/-- A single-page explorer serving that node on the primary path. -/
def witPageC1 : PageSpec := ⟨[AttemptOutcome.ok ⟨[some witTxC1], none⟩], []⟩

/-- An old on-page transaction (timestamp 5). -/
def cexTxOld : TxNode := ⟨"h1", "f", "t", "0", "OK", some 5, none⟩

/-- A recent on-page transaction (timestamp 100). -/
def cexTxNew : TxNode := ⟨"h2", "f", "t", "0", "OK", some 100, none⟩

/-- A syntactically invalid user wallet (upper-case X) that becomes valid
after the lower-casing performed inside the ownership check. -/
def cexUpperWallet : String := "0XAAAAAAAAAAAAAAAAAAAAAAAAAAAAAAAAAAAAAAAA"

/-- A valid target wallet. -/
def cexTargetWallet : String := "0xbbbbbbbbbbbbbbbbbbbbbbbbbbbbbbbbbbbbbbbb"

/-- A search oracle that finds a transaction for every query. -/
def cexSearchOracle : String → String → Nat → Nat → Option ProofTransaction :=
  fun _ _ _ _ => some (mkProofTransaction cexTxOld 50)

/-- An empty page of data. -/
def cexPageD : PageData := ⟨[], none⟩

/-! ### Row-level lemmas about the task-store operations -/

theorem updTask_getElem? (uid : String) (g : ProofTask → ProofTask)
    (l : List ProofTask) (i : Nat) :
    (updTask uid g l)[i]? = (l[i]?).map fun t => if t.task_uid = uid then g t else t :=
  List.getElem?_map _ l i

theorem updTask_ne {l : List ProofTask} {i : Nat} {t : ProofTask} {uid : String}
    (g : ProofTask → ProofTask) (h : l[i]? = some t) (hne : t.task_uid ≠ uid) :
    (updTask uid g l)[i]? = some t := by
  rw [updTask_getElem?, h]
  simp [hne]

theorem updTask_hit {l : List ProofTask} {i : Nat} {t : ProofTask} {uid : String}
    (g : ProofTask → ProofTask) (h : l[i]? = some t) (heq : t.task_uid = uid) :
    (updTask uid g l)[i]? = some (g t) := by
  rw [updTask_getElem?, h]
  simp [heq]

theorem length_updTask (uid : String) (g : ProofTask → ProofTask) (l : List ProofTask) :
    (updTask uid g l).length = l.length :=
  List.length_map l _

theorem applyStatusUpdate_uid (st : TaskStatus) (d : StatusDetails) (t : ProofTask) :
    (applyStatusUpdate st d t).task_uid = t.task_uid := rfl

theorem taskUids_updTask (uid : String) (g : ProofTask → ProofTask)
    (hg : ∀ t, (g t).task_uid = t.task_uid) (l : List ProofTask) :
    taskUids (updTask uid g l) = taskUids l := by
  induction l with
  | nil => rfl
  | cons a as ih =>
    simp only [updTask, taskUids, List.map_cons] at *
    have h1 : (if a.task_uid = uid then g a else a).task_uid = a.task_uid := by
      split
      · exact hg a
      · rfl
    rw [h1, ih]

theorem saveWalletLink_tasks (s : SchedState) (tid wallet : String) (proofed : Bool)
    (raw : Option String) : (saveWalletLink s tid wallet proofed raw).tasks = s.tasks := by
  simp only [saveWalletLink]
  split <;> rfl

theorem processSingleTask_frame (env : SchedulerEnv) (task : ProofTask) {s : SchedState}
    {i : Nat} {t : ProofTask} (h : s.tasks[i]? = some t)
    (hne : t.task_uid ≠ task.task_uid) :
    (processSingleTask env task s).tasks[i]? = some t := by
  have h1 := updTask_ne (applyStatusUpdate .processing noDetails) h hne
  have h2 := updTask_ne
    (fun u => { u with attempts := task.attempts + 1 }) h1 hne
  cases hcw : env.checkWallet with
  | none =>
    simp only [processSingleTask, hcw, updateProofTaskStatus]
    exact updTask_ne _ h hne
  | some cw =>
    cases hdw : env.decryptWallet task.wallet_address_encrypted with
    | none =>
      simp only [processSingleTask, hcw, hdw, updateProofTaskStatus, updateProofTaskAttempts]
      exact updTask_ne _ h2 hne
    | some w =>
      by_cases hc : (env.proofCheck w task.after_timestamp task.check_deadline_utc cw).isProofConfirmed
      · simp only [processSingleTask, hcw, hdw, hc, if_true, updateProofTaskStatus,
          updateProofTaskAttempts, saveWalletLink_tasks]
        exact updTask_ne _ h2 hne
      · by_cases hdl : task.check_deadline_utc ≤ env.nowInner
        · simp only [processSingleTask, hcw, hdw, hc, hdl, if_true, if_false,
            updateProofTaskStatus, updateProofTaskAttempts]
          exact updTask_ne _ h2 hne
        · by_cases hr : PROOF_RETRY_LIMIT ≤ task.attempts + 1
          · simp only [processSingleTask, hcw, hdw, hc, hdl, hr, if_true, if_false,
              updateProofTaskStatus, updateProofTaskAttempts]
            exact updTask_ne _ h2 hne
          · simp only [processSingleTask, hcw, hdw, hc, hdl, hr, if_false,
              updateProofTaskStatus, updateProofTaskAttempts]
            exact h2

theorem processSingleTask_hit (env : SchedulerEnv) (task : ProofTask) {s : SchedState}
    {i : Nat} {t : ProofTask} (h : s.tasks[i]? = some t)
    (heq : t.task_uid = task.task_uid) :
    (processSingleTask env task s).tasks[i]? = some (psTransform env task t) := by
  have h1 := updTask_hit (applyStatusUpdate .processing noDetails) h heq
  have h2 := updTask_hit
    (fun u => { u with attempts := task.attempts + 1 }) h1 heq
  cases hcw : env.checkWallet with
  | none =>
    simp only [processSingleTask, psTransform, hcw, updateProofTaskStatus]
    exact updTask_hit _ h heq
  | some cw =>
    cases hdw : env.decryptWallet task.wallet_address_encrypted with
    | none =>
      simp only [processSingleTask, psTransform, hcw, hdw, updateProofTaskStatus,
        updateProofTaskAttempts]
      exact updTask_hit _ h2 heq
    | some w =>
      by_cases hc : (env.proofCheck w task.after_timestamp task.check_deadline_utc cw).isProofConfirmed
      · simp only [processSingleTask, psTransform, hcw, hdw, hc, if_true,
          updateProofTaskStatus, updateProofTaskAttempts, saveWalletLink_tasks]
        exact updTask_hit _ h2 heq
      · by_cases hdl : task.check_deadline_utc ≤ env.nowInner
        · simp only [processSingleTask, psTransform, hcw, hdw, hc, hdl, if_true, if_false,
            updateProofTaskStatus, updateProofTaskAttempts]
          exact updTask_hit _ h2 heq
        · by_cases hr : PROOF_RETRY_LIMIT ≤ task.attempts + 1
          · simp only [processSingleTask, psTransform, hcw, hdw, hc, hdl, hr, if_true,
              if_false, updateProofTaskStatus, updateProofTaskAttempts]
            exact updTask_hit _ h2 heq
          · simp only [processSingleTask, psTransform, hcw, hdw, hc, hdl, hr, if_false,
              updateProofTaskStatus, updateProofTaskAttempts]
            exact h2

theorem workOne_frame (env : SchedulerEnv) (task : ProofTask) {s : SchedState}
    {i : Nat} {t : ProofTask} (h : s.tasks[i]? = some t)
    (hne : t.task_uid ≠ task.task_uid) :
    (workOne env task s).tasks[i]? = some t := by
  by_cases hdl : task.check_deadline_utc ≤ env.nowWork
  · simp only [workOne, hdl, if_true, updateProofTaskStatus]
    exact updTask_ne _ h hne
  · cases hlink : getWalletLink s task.telegram_id with
    | some link =>
      by_cases hp : link.proofed
      · simp only [workOne, hdl, hlink, hp, if_true, if_false, updateProofTaskStatus]
        split
        · rw [saveWalletLink_tasks]
          exact updTask_ne _ h hne
        · exact updTask_ne _ h hne
      · simp only [workOne, hdl, hlink, hp, if_false]
        exact processSingleTask_frame env task h hne
    | none =>
      simp only [workOne, hdl, hlink, if_false]
      exact processSingleTask_frame env task h hne

theorem workOne_hit (env : SchedulerEnv) (task : ProofTask) {s : SchedState}
    {i : Nat} {t : ProofTask} (h : s.tasks[i]? = some t)
    (heq : t.task_uid = task.task_uid) :
    (workOne env task s).tasks[i]? =
      some (workOneTransform env task (getWalletLink s task.telegram_id) t) := by
  by_cases hdl : task.check_deadline_utc ≤ env.nowWork
  · simp only [workOne, workOneTransform, hdl, if_true, updateProofTaskStatus]
    exact updTask_hit _ h heq
  · cases hlink : getWalletLink s task.telegram_id with
    | some link =>
      by_cases hp : link.proofed
      · simp only [workOne, workOneTransform, hdl, hlink, hp, if_true, if_false,
          updateProofTaskStatus]
        split
        · rw [saveWalletLink_tasks]
          exact updTask_hit _ h heq
        · exact updTask_hit _ h heq
      · simp only [workOne, workOneTransform, hdl, hlink, hp, if_false]
        exact processSingleTask_hit env task h heq
    | none =>
      simp only [workOne, workOneTransform, hdl, hlink, if_false]
      exact processSingleTask_hit env task h heq

theorem taskUids_updateProofTaskStatus (tasks : List ProofTask) (uid : String)
    (st : TaskStatus) (d : StatusDetails) :
    taskUids (updateProofTaskStatus tasks uid st d) = taskUids tasks := by
  unfold updateProofTaskStatus
  exact taskUids_updTask uid (applyStatusUpdate st d) (fun _ => rfl) tasks

theorem taskUids_updateProofTaskAttempts (tasks : List ProofTask) (uid : String) (n : Nat) :
    taskUids (updateProofTaskAttempts tasks uid n) = taskUids tasks := by
  unfold updateProofTaskAttempts
  exact taskUids_updTask uid (fun t => { t with attempts := n }) (fun _ => rfl) tasks

theorem taskUids_processSingleTask (env : SchedulerEnv) (task : ProofTask) (s : SchedState) :
    taskUids (processSingleTask env task s).tasks = taskUids s.tasks := by
  cases hcw : env.checkWallet with
  | none =>
    simp only [processSingleTask, hcw, taskUids_updateProofTaskStatus]
  | some cw =>
    cases hdw : env.decryptWallet task.wallet_address_encrypted with
    | none =>
      simp only [processSingleTask, hcw, hdw, taskUids_updateProofTaskStatus,
        taskUids_updateProofTaskAttempts]
    | some w =>
      simp only [processSingleTask, hcw, hdw]
      split
      · simp only [saveWalletLink_tasks, taskUids_updateProofTaskStatus,
          taskUids_updateProofTaskAttempts]
      · split
        · simp only [taskUids_updateProofTaskStatus, taskUids_updateProofTaskAttempts]
        · split
          · simp only [taskUids_updateProofTaskStatus, taskUids_updateProofTaskAttempts]
          · simp only [taskUids_updateProofTaskStatus, taskUids_updateProofTaskAttempts]

theorem taskUids_workOne (env : SchedulerEnv) (task : ProofTask) (s : SchedState) :
    taskUids (workOne env task s).tasks = taskUids s.tasks := by
  simp only [workOne]
  split
  · simp only [taskUids_updateProofTaskStatus]
  · split
    · split
      · split
        · simp only [saveWalletLink_tasks, taskUids_updateProofTaskStatus]
        · simp only [taskUids_updateProofTaskStatus]
      · exact taskUids_processSingleTask env task s
    · exact taskUids_processSingleTask env task s

theorem taskUids_phase_foldl (step : SchedState → ProofTask → SchedState)
    (hstep : ∀ st x, taskUids (step st x).tasks = taskUids st.tasks)
    (sel : List ProofTask) (s : SchedState) :
    taskUids ((sel.foldl step s).tasks) = taskUids s.tasks := by
  induction sel generalizing s with
  | nil => rfl
  | cons x xs ih => rw [List.foldl_cons, ih, hstep]

theorem length_of_taskUids_eq {l1 l2 : List ProofTask}
    (h : taskUids l1 = taskUids l2) : l1.length = l2.length := by
  have := congrArg List.length h
  simpa [taskUids] using this

theorem uidsDistinct_of_taskUids_eq {l1 l2 : List ProofTask}
    (h : taskUids l1 = taskUids l2) (hd : UidsDistinct l2) : UidsDistinct l1 := by
  have h1 : (taskUids l1).Pairwise Ne := by
    rw [h]
    exact (List.pairwise_map).mpr hd
  exact (List.pairwise_map).mp h1

theorem uid_eq_of_uidsDistinct {l : List ProofTask} (hd : UidsDistinct l)
    {x t : ProofTask} (hx : x ∈ l) (ht : t ∈ l)
    (huid : t.task_uid = x.task_uid) : t = x := by
  by_contra hne
  have h2 : t.task_uid ≠ x.task_uid :=
    List.Pairwise.forall (fun {_ _} hab => Ne.symm hab) hd ht hx hne
  exact h2 huid

theorem foldl_one_touch
    (step : SchedState → ProofTask → SchedState)
    (R : ProofTask → ProofTask → Prop)
    (hlen : ∀ st x, (step st x).tasks.length = st.tasks.length)
    (hframe : ∀ st (x : ProofTask) (i : Nat) (t : ProofTask), st.tasks[i]? = some t →
      t.task_uid ≠ x.task_uid → (step st x).tasks[i]? = some t)
    (hhit : ∀ st (x : ProofTask) (i : Nat), st.tasks[i]? = some x →
      ∃ u, (step st x).tasks[i]? = some u ∧ u.task_uid = x.task_uid ∧ R x u)
    (sel : List ProofTask) (hsel : UidsDistinct sel) (s0 : SchedState)
    (hcoh : ∀ x ∈ sel, ∀ (i : Nat) (t : ProofTask), s0.tasks[i]? = some t →
      t.task_uid = x.task_uid → t = x) :
    ∀ (i : Nat) (t : ProofTask), s0.tasks[i]? = some t →
      (sel.foldl step s0).tasks[i]? = some t ∨
      (t ∈ sel ∧ ∃ u, (sel.foldl step s0).tasks[i]? = some u ∧
        u.task_uid = t.task_uid ∧ R t u) := by
  unfold UidsDistinct at hsel
  revert hsel hcoh
  induction sel generalizing s0 with
  | nil =>
    intro _ _ i t h
    exact Or.inl h
  | cons x xs ih =>
    intro hsel hcoh i t h
    rw [List.pairwise_cons] at hsel
    obtain ⟨hx, hxs⟩ := hsel
    have hcohS1 : ∀ y ∈ xs, ∀ (i2 : Nat) (t2 : ProofTask), (step s0 x).tasks[i2]? = some t2 →
        t2.task_uid = y.task_uid → t2 = y := by
      intro y hy i2 t2 h2 huid
      have hlt : i2 < s0.tasks.length := by
        have : i2 < (step s0 x).tasks.length := by
          by_contra hno
          rw [List.getElem?_eq_none_iff.mpr (Nat.le_of_not_lt hno)] at h2
          exact Option.noConfusion h2
        rwa [hlen] at this
      obtain ⟨t0, h0⟩ : ∃ t0, s0.tasks[i2]? = some t0 :=
        ⟨s0.tasks.get ⟨i2, hlt⟩, List.getElem?_eq_getElem hlt⟩
      by_cases hu0 : t0.task_uid = x.task_uid
      · have ht0 : t0 = x := hcoh x (List.mem_cons_self x xs) i2 t0 h0 hu0
        obtain ⟨u, hu1, hu2, _⟩ := hhit s0 x i2 (ht0 ▸ h0)
        rw [hu1] at h2
        injection h2 with h2e
        rw [← h2e] at huid
        exact absurd (hu2.symm.trans huid) (hx y hy)
      · have h2' := hframe s0 x i2 t0 h0 hu0
        rw [h2'] at h2
        injection h2 with h2e
        rw [← h2e] at huid
        exact h2e ▸ hcoh y (List.mem_cons_of_mem x hy) i2 t0 h0 huid
    by_cases hu : t.task_uid = x.task_uid
    · have ht : t = x := hcoh x (List.mem_cons_self x xs) i t h hu
      obtain ⟨u, hu1, hu2, hR⟩ := hhit s0 x i (ht ▸ h)
      rcases ih (step s0 x) hxs hcohS1 i u hu1 with h2 | ⟨hmem, v, hv1, hv2, _⟩
      · have hmem_t : t ∈ x :: xs := by rw [ht]; exact List.mem_cons_self x xs
        have huid_t : u.task_uid = t.task_uid := by rw [hu2, ht]
        have hR_t : R t u := by rw [ht]; exact hR
        exact Or.inr ⟨hmem_t, u, h2, huid_t, hR_t⟩
      · exact absurd hu2.symm (hx u hmem)
    · have h1 := hframe s0 x i t h hu
      rcases ih (step s0 x) hxs hcohS1 i t h1 with h2 | ⟨hmem, v, hv1, hv2, hRv⟩
      · exact Or.inl h2
      · exact Or.inr ⟨List.mem_cons_of_mem x hmem, v, hv1, hv2, hRv⟩

/-! ### Selection lemmas for the two scheduler queries -/

theorem insertByCreatedAt_perm (t : ProofTask) (l : List ProofTask) :
    (insertByCreatedAt t l).Perm (t :: l) := by
  induction l with
  | nil => exact List.Perm.refl _
  | cons u us ih =>
    simp only [insertByCreatedAt]
    split
    · exact List.Perm.refl _
    · exact (List.Perm.cons u ih).trans (List.Perm.swap t u us)

theorem sortByCreatedAt_perm (l : List ProofTask) : (sortByCreatedAt l).Perm l := by
  induction l with
  | nil => exact List.Perm.refl _
  | cons t ts ih =>
    exact (insertByCreatedAt_perm t (sortByCreatedAt ts)).trans (List.Perm.cons t ih)

theorem mem_sortByCreatedAt {x : ProofTask} {l : List ProofTask} :
    x ∈ sortByCreatedAt l ↔ x ∈ l :=
  (sortByCreatedAt_perm l).mem_iff

theorem mem_getStuckAndExpiredTasks {x : ProofTask} {l : List ProofTask} {nowUtc : Nat}
    (h : x ∈ getStuckAndExpiredTasks nowUtc l) :
    x ∈ l ∧ isActiveStatus x.status = true ∧ x.check_deadline_utc < nowUtc := by
  rw [getStuckAndExpiredTasks, List.mem_filter] at h
  obtain ⟨hm, hp⟩ := h
  have hp2 : isActiveStatus x.status = true ∧ decide (x.check_deadline_utc < nowUtc) = true := by
    simpa using hp
  exact ⟨hm, hp2.1, of_decide_eq_true hp2.2⟩

theorem mem_findProcessableTasks {x : ProofTask} {l : List ProofTask} {nowUtc limit : Nat}
    (h : x ∈ findProcessableTasks nowUtc limit l) :
    x ∈ l ∧ isActiveStatus x.status = true ∧ nowUtc < x.check_deadline_utc := by
  rw [findProcessableTasks] at h
  have h1 := mem_sortByCreatedAt.mp (List.mem_of_mem_take h)
  rw [List.mem_filter] at h1
  obtain ⟨hm, hp⟩ := h1
  have hp2 : isActiveStatus x.status = true ∧ decide (nowUtc < x.check_deadline_utc) = true := by
    simpa using hp
  exact ⟨hm, hp2.1, of_decide_eq_true hp2.2⟩

theorem uidsDistinct_getStuckAndExpiredTasks {l : List ProofTask} (hd : UidsDistinct l)
    (nowUtc : Nat) : UidsDistinct (getStuckAndExpiredTasks nowUtc l) :=
  List.Pairwise.filter _ hd

theorem uidsDistinct_findProcessableTasks {l : List ProofTask} (hd : UidsDistinct l)
    (nowUtc limit : Nat) : UidsDistinct (findProcessableTasks nowUtc limit l) := by
  have h1 : UidsDistinct (l.filter fun t =>
      isActiveStatus t.status && nowUtc < t.check_deadline_utc) :=
    List.Pairwise.filter _ hd
  have h2 : UidsDistinct (sortByCreatedAt (l.filter fun t =>
      isActiveStatus t.status && nowUtc < t.check_deadline_utc)) :=
    ((sortByCreatedAt_perm _).pairwise_iff (fun {_ _} hab => Ne.symm hab)).mpr h1
  exact h2.sublist (List.take_sublist _ _)

theorem hcoh_of_mem {l : List ProofTask} (hd : UidsDistinct l) {sel : List ProofTask}
    (hsub : ∀ x ∈ sel, x ∈ l) :
    ∀ x ∈ sel, ∀ (i : Nat) (t : ProofTask), l[i]? = some t →
      t.task_uid = x.task_uid → t = x := by
  intro x hx i t h huid
  exact uid_eq_of_uidsDistinct hd (hsub x hx) (List.getElem?_mem h) huid

/-! ### Phase-level one-touch lemmas -/

theorem psTransform_uid (env : SchedulerEnv) (task t : ProofTask) :
    (psTransform env task t).task_uid = t.task_uid := by
  simp only [psTransform]
  cases env.checkWallet with
  | none => rfl
  | some cw =>
    cases env.decryptWallet task.wallet_address_encrypted with
    | none => rfl
    | some w =>
      dsimp only
      split
      · rfl
      · split
        · rfl
        · split
          · rfl
          · rfl

theorem workOneTransform_uid (env : SchedulerEnv) (task : ProofTask)
    (link : Option WalletLink) (t : ProofTask) :
    (workOneTransform env task link t).task_uid = t.task_uid := by
  simp only [workOneTransform]
  split
  · rfl
  · split
    · split
      · rfl
      · exact psTransform_uid env task t
    · exact psTransform_uid env task t

theorem reapBody_one_touch (env : SchedulerEnv) (R : ProofTask → ProofTask → Prop)
    (hR : ∀ x, R x (reapTransform x x)) (s : SchedState) (hdist : UidsDistinct s.tasks) :
    ∀ (i : Nat) (t : ProofTask), s.tasks[i]? = some t →
      (handleStuckOrExpiredTasksBody env s).tasks[i]? = some t ∨
      (t ∈ getStuckAndExpiredTasks env.nowReap s.tasks ∧
       ∃ u, (handleStuckOrExpiredTasksBody env s).tasks[i]? = some u ∧
         u.task_uid = t.task_uid ∧ R t u) := by
  refine foldl_one_touch _ R ?_ ?_ ?_ _
    (uidsDistinct_getStuckAndExpiredTasks hdist env.nowReap) s
    (hcoh_of_mem hdist (fun x hx => (mem_getStuckAndExpiredTasks hx).1))
  · intro st x
    dsimp only
    split
    · exact length_updTask _ _ _
    · rfl
  · intro st x i t h hne
    dsimp only
    split
    · exact updTask_ne _ h hne
    · exact h
  · intro st x i h
    dsimp only
    by_cases hact : isActiveStatus x.status = true
    · refine ⟨applyStatusUpdate .expired (msgDetails msgAutoExpired) x, ?_, rfl, ?_⟩
      · simp only [hact, if_true, updateProofTaskStatus]
        exact updTask_hit _ h rfl
      · have heq : reapTransform x x = applyStatusUpdate .expired (msgDetails msgAutoExpired) x := by
          simp [reapTransform, hact]
        have h3 := hR x
        rw [heq] at h3
        exact h3
    · refine ⟨x, ?_, rfl, ?_⟩
      · simp only [Bool.not_eq_true] at hact
        simp only [hact, Bool.false_eq_true, if_false]
        exact h
      · have heq : reapTransform x x = x := by
          simp only [Bool.not_eq_true] at hact
          simp [reapTransform, hact]
        have h3 := hR x
        rw [heq] at h3
        exact h3

theorem workBody_one_touch (env : SchedulerEnv) (R : ProofTask → ProofTask → Prop)
    (hR : ∀ x link, R x (workOneTransform env x link x)) (s : SchedState)
    (hdist : UidsDistinct s.tasks) :
    ∀ (i : Nat) (t : ProofTask), s.tasks[i]? = some t →
      (processPendingTasksBody env s).tasks[i]? = some t ∨
      (t ∈ findProcessableTasks env.nowDb 10 s.tasks ∧
       ∃ u, (processPendingTasksBody env s).tasks[i]? = some u ∧
         u.task_uid = t.task_uid ∧ R t u) := by
  refine foldl_one_touch _ R ?_ ?_ ?_ _
    (uidsDistinct_findProcessableTasks hdist env.nowDb 10) s
    (hcoh_of_mem hdist (fun x hx => (mem_findProcessableTasks hx).1))
  · intro st x
    exact length_of_taskUids_eq (taskUids_workOne env x st)
  · intro st x i t h hne
    exact workOne_frame env x h hne
  · intro st x i h
    exact ⟨workOneTransform env x (getWalletLink st x.telegram_id) x,
      workOne_hit env x h rfl, workOneTransform_uid env x _ x, hR x _⟩

theorem taskUids_reapBody (env : SchedulerEnv) (s : SchedState) :
    taskUids (handleStuckOrExpiredTasksBody env s).tasks = taskUids s.tasks := by
  refine taskUids_phase_foldl _ ?_ _ _
  intro st x
  dsimp only
  split
  · exact taskUids_updateProofTaskStatus _ _ _ _
  · rfl

theorem taskUids_workBody (env : SchedulerEnv) (s : SchedState) :
    taskUids (processPendingTasksBody env s).tasks = taskUids s.tasks := by
  refine taskUids_phase_foldl _ ?_ _ _
  intro st x
  exact taskUids_workOne env x st

/-! ### Status and transform helper lemmas -/

theorem active_iff (st : TaskStatus) :
    isActiveStatus st = true ↔ st = .pending ∨ st = .processing := by
  cases st <;> decide

theorem terminal_not_active {st : TaskStatus} (h : st.isTerminal = true) :
    isActiveStatus st = false := by
  cases st <;> first
    | rfl
    | exact absurd h (by decide)

theorem allowedErrWrite_not_active {u : ProofTask} (h : AllowedErrWrite u) :
    isActiveStatus u.status = false := by
  rcases h with ⟨h1, _⟩ | ⟨h1, _⟩ | ⟨h1, _⟩ | ⟨h1, _⟩ <;> rw [h1] <;> rfl

theorem applyStatusUpdate_attempts (st : TaskStatus) (d : StatusDetails) (t : ProofTask) :
    (applyStatusUpdate st d t).attempts = t.attempts := rfl

theorem applyStatusUpdate_status (st : TaskStatus) (d : StatusDetails) (t : ProofTask) :
    (applyStatusUpdate st d t).status = st := rfl

theorem psTransform_attempts_some {env : SchedulerEnv} {cw : String}
    (hcw : env.checkWallet = some cw) (task t : ProofTask) :
    (psTransform env task t).attempts = task.attempts + 1 := by
  simp only [psTransform, hcw]
  cases env.decryptWallet task.wallet_address_encrypted with
  | none => rfl
  | some w =>
    dsimp only
    split
    · rfl
    · split
      · rfl
      · split
        · rfl
        · rfl

theorem psTransform_attempts_none {env : SchedulerEnv}
    (hcw : env.checkWallet = none) (task t : ProofTask) :
    (psTransform env task t).attempts = t.attempts := by
  simp only [psTransform, hcw]
  rfl

theorem reapTransform_attempts (x t : ProofTask) :
    (reapTransform x t).attempts = t.attempts := by
  simp only [reapTransform]
  split <;> rfl

theorem workOneTransform_attempts (env : SchedulerEnv) (x : ProofTask)
    (link : Option WalletLink) (t : ProofTask) :
    (workOneTransform env x link t).attempts = t.attempts ∨
    (workOneTransform env x link t).attempts = x.attempts + 1 := by
  simp only [workOneTransform]
  split
  · exact Or.inl rfl
  · have hps : (psTransform env x t).attempts = t.attempts ∨
        (psTransform env x t).attempts = x.attempts + 1 := by
      cases hcw : env.checkWallet with
      | none => exact Or.inl (psTransform_attempts_none hcw x t)
      | some cw => exact Or.inr (psTransform_attempts_some hcw x t)
    split
    · split
      · exact Or.inl rfl
      · exact hps
    · exact hps

theorem psTransform_errWrite (env : SchedulerEnv) (x t : ProofTask) :
    (psTransform env x t).error_message = t.error_message ∨
    AllowedErrWrite (psTransform env x t) := by
  simp only [psTransform]
  cases hcw : env.checkWallet with
  | none =>
    exact Or.inr (Or.inl ⟨rfl, Or.inl rfl⟩)
  | some cw =>
    cases hdw : env.decryptWallet x.wallet_address_encrypted with
    | none =>
      exact Or.inr (Or.inl ⟨rfl, Or.inr rfl⟩)
    | some w =>
      dsimp only
      split
      · exact Or.inl rfl
      · split
        · exact Or.inr (Or.inr (Or.inl ⟨rfl, Or.inr (Or.inr rfl)⟩))
        · split
          · exact Or.inr (Or.inr (Or.inr (Or.inl ⟨rfl, x.attempts + 1, rfl⟩)))
          · exact Or.inl rfl

theorem workOneTransform_errWrite (env : SchedulerEnv) (x : ProofTask)
    (link : Option WalletLink) (t : ProofTask) :
    (workOneTransform env x link t).error_message = t.error_message ∨
    AllowedErrWrite (workOneTransform env x link t) := by
  simp only [workOneTransform]
  split
  · exact Or.inr (Or.inr (Or.inl ⟨rfl, Or.inr (Or.inl rfl)⟩))
  · split
    · split
      · exact Or.inr (Or.inr (Or.inr (Or.inr ⟨rfl, rfl⟩)))
      · exact psTransform_errWrite env x t
    · exact psTransform_errWrite env x t

theorem reapTransform_errWrite (x t : ProofTask) :
    (reapTransform x t).error_message = t.error_message ∨
    AllowedErrWrite (reapTransform x t) := by
  simp only [reapTransform]
  split
  · exact Or.inr (Or.inr (Or.inl ⟨rfl, Or.inl rfl⟩))
  · exact Or.inl rfl

theorem msgDeadlinePassed_ne_msgMaxRetry (l n : Nat) :
    msgDeadlinePassed ≠ msgMaxRetry l n := by
  intro h
  have h2 := congrArg String.data h
  have h3 : (msgMaxRetry l n).data =
      'M' :: ("ax retry limit (" ++ toString l ++ ") reached. Attempts: " ++ toString n).data :=
    rfl
  rw [h3] at h2
  have h4 : msgDeadlinePassed.data =
      'D' :: "eadline passed, proof not found.".data := rfl
  rw [h4] at h2
  injection h2 with h5 _
  exact absurd h5 (by decide)

/-! ### Claim theorems for the scheduler -/

/-- C2: once a task is in a terminal status (success, failed_no_tx,
expired, error or cancelled), no scheduler cycle changes any of its fields:
both task-selection queries return only tasks with status pending or
processing, so a terminal row is never selected, and a full cycle (reap
phase then work phase) leaves it exactly as it was (given the UNIQUE
constraint on task_uid). -/
theorem terminal_tasks_never_touched (env : SchedulerEnv) (s : SchedState)
    (hdist : UidsDistinct s.tasks) :
    (∀ x ∈ getStuckAndExpiredTasks env.nowReap s.tasks,
      x.status = .pending ∨ x.status = .processing) ∧
    (∀ x ∈ findProcessableTasks env.nowDb 10 s.tasks,
      x.status = .pending ∨ x.status = .processing) ∧
    ∀ (i : Nat) (t : ProofTask), s.tasks[i]? = some t → t.status.isTerminal = true →
      (runFullCycle env s).tasks[i]? = some t := by
  refine ⟨?_, ?_, ?_⟩
  · intro x hx
    exact (active_iff x.status).mp (mem_getStuckAndExpiredTasks hx).2.1
  · intro x hx
    exact (active_iff x.status).mp (mem_findProcessableTasks hx).2.1
  · intro i t h hterm
    have hna : isActiveStatus t.status = false := terminal_not_active hterm
    rcases reapBody_one_touch env (fun _ _ => True) (fun _ => trivial) s hdist i t h with
      h1 | ⟨hmem, _⟩
    · have hdist1 : UidsDistinct (handleStuckOrExpiredTasksBody env s).tasks :=
        uidsDistinct_of_taskUids_eq (taskUids_reapBody env s) hdist
      rcases workBody_one_touch env (fun _ _ => True) (fun _ _ => trivial) _ hdist1 i t h1 with
        h2 | ⟨hmem2, _⟩
      · exact h2
      · have hact := (mem_findProcessableTasks hmem2).2.1
        rw [hna] at hact
        exact Bool.noConfusion hact
    · have hact := (mem_getStuckAndExpiredTasks hmem).2.1
      rw [hna] at hact
      exact Bool.noConfusion hact

/-- C2 witness: a concrete terminal task survives a concrete full cycle
unchanged. -/
theorem terminal_tasks_never_touched_witness :
    (runFullCycle witEnv ⟨[witTaskTerm], []⟩).tasks[0]? = some witTaskTerm :=
  (terminal_tasks_never_touched witEnv ⟨[witTaskTerm], []⟩
    (by simp [UidsDistinct])).2.2 0 witTaskTerm rfl rfl

/-- C9: a pending or processing task whose deadline equals the current
unix second is selected by neither scheduler query (the reap query needs
deadline strictly below now, the work query needs it strictly above), and
the full cycle leaves the row completely unchanged. -/
theorem deadline_boundary_untouched (env : SchedulerEnv) (s : SchedState)
    (hdist : UidsDistinct s.tasks) (n : Nat) (h1 : env.nowReap = n) (h2 : env.nowDb = n)
    (i : Nat) (t : ProofTask) (h : s.tasks[i]? = some t)
    (_hact : t.status = .pending ∨ t.status = .processing)
    (hdl : t.check_deadline_utc = n) :
    t ∉ getStuckAndExpiredTasks env.nowReap s.tasks ∧
    t ∉ findProcessableTasks env.nowDb 10 s.tasks ∧
    (runFullCycle env s).tasks[i]? = some t := by
  refine ⟨?_, ?_, ?_⟩
  · intro hmem
    have := (mem_getStuckAndExpiredTasks hmem).2.2
    rw [hdl, h1] at this
    exact Nat.lt_irrefl n this
  · intro hmem
    have := (mem_findProcessableTasks hmem).2.2
    rw [hdl, h2] at this
    exact Nat.lt_irrefl n this
  · rcases reapBody_one_touch env (fun _ _ => True) (fun _ => trivial) s hdist i t h with
      hr1 | ⟨hmem, _⟩
    · have hdist1 : UidsDistinct (handleStuckOrExpiredTasksBody env s).tasks :=
        uidsDistinct_of_taskUids_eq (taskUids_reapBody env s) hdist
      rcases workBody_one_touch env (fun _ _ => True) (fun _ _ => trivial) _ hdist1 i t hr1 with
        hw1 | ⟨hmem2, _⟩
      · exact hw1
      · have := (mem_findProcessableTasks hmem2).2.2
        rw [hdl, h2] at this
        exact absurd this (Nat.lt_irrefl n)
    · have := (mem_getStuckAndExpiredTasks hmem).2.2
      rw [hdl, h1] at this
      exact absurd this (Nat.lt_irrefl n)

/-- C9 witness: a concrete pending task with deadline exactly at the cycle
clock is selected by neither query and survives the cycle unchanged. -/
theorem deadline_boundary_untouched_witness :
    witTaskBoundary ∉ getStuckAndExpiredTasks witEnv.nowReap [witTaskBoundary] ∧
    witTaskBoundary ∉ findProcessableTasks witEnv.nowDb 10 [witTaskBoundary] ∧
    (runFullCycle witEnv ⟨[witTaskBoundary], []⟩).tasks[0]? = some witTaskBoundary :=
  deadline_boundary_untouched witEnv ⟨[witTaskBoundary], []⟩ (by simp [UidsDistinct])
    100 rfl rfl 0 witTaskBoundary rfl (Or.inl rfl) rfl

/-- C10: both guarded phases reset their re-entrancy flag on every
invocation that runs the body, whether the body returns normally or raises
a caught exception; an invocation that finds the flag set skips the body
and leaves the state untouched, so one failed cycle never leaves a flag
permanently set. -/
theorem reentrancy_flags_always_reset :
    ∀ (body : SchedState → Except SchedState SchedState) (s : SchedState),
      (handleStuckOrExpiredTasksRun false body s).1 = false ∧
      (processPendingTasksRun false body s).1 = false ∧
      handleStuckOrExpiredTasksRun true body s = (true, s) ∧
      processPendingTasksRun true body s = (true, s) := by
  intro body s
  refine ⟨?_, ?_, rfl, rfl⟩ <;>
  · simp only [handleStuckOrExpiredTasksRun, processPendingTasksRun, guardedInvocation,
      Bool.false_eq_true, if_false]
    cases body s <;> rfl

/-- C3: when the ownership check reports not confirmed, processSingleTask
moves the task to expired when its deadline has passed at evaluation time,
else to failed_no_tx when the incremented attempt count reaches the retry
ceiling, and otherwise leaves it in processing; expired and failed_no_tx
are both terminal and their diagnostic messages differ. -/
theorem not_confirmed_transition (env : SchedulerEnv) (task : ProofTask) (s : SchedState)
    (i : Nat) (t : ProofTask) (cw w : String)
    (hcw : env.checkWallet = some cw)
    (hdw : env.decryptWallet task.wallet_address_encrypted = some w)
    (hnc : (env.proofCheck w task.after_timestamp task.check_deadline_utc cw).isProofConfirmed
      = false)
    (h : s.tasks[i]? = some t) (huid : t.task_uid = task.task_uid) :
    ∃ u, (processSingleTask env task s).tasks[i]? = some u ∧
      (task.check_deadline_utc ≤ env.nowInner →
        u.status = .expired ∧ u.error_message = some msgDeadlinePassed) ∧
      (env.nowInner < task.check_deadline_utc → PROOF_RETRY_LIMIT ≤ task.attempts + 1 →
        u.status = .failed_no_tx ∧
        u.error_message = some (msgMaxRetry PROOF_RETRY_LIMIT (task.attempts + 1))) ∧
      (env.nowInner < task.check_deadline_utc → task.attempts + 1 < PROOF_RETRY_LIMIT →
        u.status = .processing) ∧
      TaskStatus.isTerminal .expired = true ∧
      TaskStatus.isTerminal .failed_no_tx = true ∧
      (∀ m, msgDeadlinePassed ≠ msgMaxRetry PROOF_RETRY_LIMIT m) := by
  refine ⟨psTransform env task t, processSingleTask_hit env task h huid, ?_, ?_, ?_,
    rfl, rfl, fun m => msgDeadlinePassed_ne_msgMaxRetry _ m⟩
  · intro hd
    simp only [psTransform, hcw, hdw, hnc, Bool.false_eq_true, if_false, hd, if_true]
    exact ⟨rfl, rfl⟩
  · intro hd hr
    have hd2 : ¬ task.check_deadline_utc ≤ env.nowInner := Nat.not_le.mpr hd
    simp only [psTransform, hcw, hdw, hnc, Bool.false_eq_true, if_false, hd2, hr, if_true]
    exact ⟨rfl, rfl⟩
  · intro hd hr
    have hd2 : ¬ task.check_deadline_utc ≤ env.nowInner := Nat.not_le.mpr hd
    have hr2 : ¬ PROOF_RETRY_LIMIT ≤ task.attempts + 1 := Nat.not_le.mpr hr
    simp only [psTransform, hcw, hdw, hnc, Bool.false_eq_true, if_false, hd2, hr2]
    rfl

/-- C3 witness: a concrete not-confirmed task whose deadline has passed is
moved to expired with the deadline diagnostic. -/
theorem not_confirmed_transition_witness :
    ∃ u, (processSingleTask witEnv witTaskOld ⟨[witTaskOld], []⟩).tasks[0]? = some u ∧
      u.status = .expired ∧ u.error_message = some msgDeadlinePassed := by
  obtain ⟨u, hu, hexp, _⟩ := not_confirmed_transition witEnv witTaskOld ⟨[witTaskOld], []⟩
    0 witTaskOld "0xcw" "0xw" rfl rfl rfl rfl rfl
  exact ⟨u, hu, (hexp (by decide)).1, (hexp (by decide)).2⟩

/-- C7: the attempts counter is written to the batch snapshot plus one,
exactly once, by every processSingleTask dispatch with the challenge wallet
configured (in particular by every dispatch that reaches the ownership
check); the already-proofed short-circuit leaves attempts untouched; and
over a full cycle attempts never decreases and grows by at most one. -/
theorem attempts_discipline (env : SchedulerEnv) (s : SchedState) :
    (∀ (task t : ProofTask) (st : SchedState) (i : Nat) (cw : String),
      env.checkWallet = some cw → st.tasks[i]? = some t → t.task_uid = task.task_uid →
      ∃ u, (processSingleTask env task st).tasks[i]? = some u ∧
        u.attempts = task.attempts + 1) ∧
    (∀ (task t : ProofTask) (st : SchedState) (i : Nat) (link : WalletLink),
      ¬ task.check_deadline_utc ≤ env.nowWork →
      getWalletLink st task.telegram_id = some link → link.proofed = true →
      st.tasks[i]? = some t → t.task_uid = task.task_uid →
      ∃ u, (workOne env task st).tasks[i]? = some u ∧ u.attempts = t.attempts) ∧
    (UidsDistinct s.tasks →
      ∀ (i : Nat) (t : ProofTask), s.tasks[i]? = some t →
        ∃ u, (runFullCycle env s).tasks[i]? = some u ∧
          t.attempts ≤ u.attempts ∧ u.attempts ≤ t.attempts + 1) := by
  refine ⟨?_, ?_, ?_⟩
  · intro task t st i cw hcw hst huid
    exact ⟨psTransform env task t, processSingleTask_hit env task hst huid,
      psTransform_attempts_some hcw task t⟩
  · intro task t st i link hdl hlink hp hst huid
    refine ⟨workOneTransform env task (getWalletLink st task.telegram_id) t,
      workOne_hit env task hst huid, ?_⟩
    simp only [workOneTransform, hdl, if_false, hlink, hp, if_true]
    rfl
  · intro hdist i t h
    rcases reapBody_one_touch env (fun b a => a.attempts = b.attempts)
      (fun x => reapTransform_attempts x x) s hdist i t h with h1 | ⟨_, u, hu1, _, hAu⟩
    · have hdist1 : UidsDistinct (handleStuckOrExpiredTasksBody env s).tasks :=
        uidsDistinct_of_taskUids_eq (taskUids_reapBody env s) hdist
      rcases workBody_one_touch env
        (fun b a => a.attempts = b.attempts ∨ a.attempts = b.attempts + 1)
        (fun x link => workOneTransform_attempts env x link x) _ hdist1 i t h1 with
        h2 | ⟨_, v, hv1, _, hAv⟩
      · exact ⟨t, h2, Nat.le_refl _, Nat.le_succ _⟩
      · rcases hAv with hv | hv
        · exact ⟨v, hv1, by rw [hv], by rw [hv]; exact Nat.le_succ _⟩
        · exact ⟨v, hv1, by rw [hv]; exact Nat.le_succ _, by rw [hv]⟩
    · have hdist1 : UidsDistinct (handleStuckOrExpiredTasksBody env s).tasks :=
        uidsDistinct_of_taskUids_eq (taskUids_reapBody env s) hdist
      rcases workBody_one_touch env
        (fun b a => a.attempts = b.attempts ∨ a.attempts = b.attempts + 1)
        (fun x link => workOneTransform_attempts env x link x) _ hdist1 i u hu1 with
        h2 | ⟨_, v, hv1, _, hAv⟩
      · exact ⟨u, h2, by rw [hAu], by rw [hAu]; exact Nat.le_succ _⟩
      · rcases hAv with hv | hv
        · exact ⟨v, hv1, by rw [hv, hAu], by rw [hv, hAu]; exact Nat.le_succ _⟩
        · exact ⟨v, hv1, by rw [hv, hAu]; exact Nat.le_succ _, by rw [hv, hAu]⟩

/-- C7 witness: a concrete dispatch writes attempts one above the
snapshot. -/
theorem attempts_discipline_witness :
    ∃ u, (processSingleTask witEnv witTaskPend ⟨[witTaskPend], []⟩).tasks[0]? = some u ∧
      u.attempts = witTaskPend.attempts + 1 :=
  (attempts_discipline witEnv ⟨[witTaskPend], []⟩).1 witTaskPend witTaskPend
    ⟨[witTaskPend], []⟩ 0 "0xcw" rfl rfl rfl

/-- C8 counterexample: the work phase writes status success together with a
non-null errorMessage on the already-proofed short-circuit, so the claim
that errorMessage is written only with error, expired or failed_no_tx fails
on this concrete state. -/
theorem errorMessage_success_counterexample :
    (processPendingTasksBody witEnv cexStateC8).tasks.map
        (fun t => (t.status, t.error_message)) =
      [(TaskStatus.success, some msgAlreadyProofed)] ∧
    cexTaskC8.error_message = none := by
  exact ⟨rfl, rfl⟩

/-- C8 amended: over a full cycle, every row either keeps its errorMessage
unchanged or is written with one of the scheduler's status/message pairs:
error with a fatal diagnostic, expired with an expiry diagnostic,
failed_no_tx with the retry-ceiling diagnostic, or success with the
already-proofed short-circuit diagnostic; in particular the found-proof
success write never sets errorMessage. -/
theorem errorMessage_write_discipline (env : SchedulerEnv) (s : SchedState)
    (hdist : UidsDistinct s.tasks) :
    ∀ (i : Nat) (t : ProofTask), s.tasks[i]? = some t →
      ∃ u, (runFullCycle env s).tasks[i]? = some u ∧
        (u.error_message = t.error_message ∨ AllowedErrWrite u) := by
  intro i t h
  have hdist1 : UidsDistinct (handleStuckOrExpiredTasksBody env s).tasks :=
    uidsDistinct_of_taskUids_eq (taskUids_reapBody env s) hdist
  rcases reapBody_one_touch env
    (fun b a => a.error_message = b.error_message ∨ AllowedErrWrite a)
    (fun x => reapTransform_errWrite x x) s hdist i t h with h1 | ⟨_, u, hu1, _, hRu⟩
  · rcases workBody_one_touch env
      (fun b a => a.error_message = b.error_message ∨ AllowedErrWrite a)
      (fun x link => workOneTransform_errWrite env x link x) _ hdist1 i t h1 with
      h2 | ⟨_, v, hv1, _, hRv⟩
    · exact ⟨t, h2, Or.inl rfl⟩
    · exact ⟨v, hv1, hRv⟩
  · rcases workBody_one_touch env
      (fun b a => a.error_message = b.error_message ∨ AllowedErrWrite a)
      (fun x link => workOneTransform_errWrite env x link x) _ hdist1 i u hu1 with
      h2 | ⟨hmem2, v, hv1, _, hRv⟩
    · exact ⟨u, h2, hRu⟩
    · rcases hRu with hEq | hAW
      · rcases hRv with hEq2 | hAW2
        · exact ⟨v, hv1, Or.inl (hEq2.trans hEq)⟩
        · exact ⟨v, hv1, Or.inr hAW2⟩
      · have hact := (mem_findProcessableTasks hmem2).2.1
        rw [allowedErrWrite_not_active hAW] at hact
        exact Bool.noConfusion hact

/-- C8 amended witness: the discipline instantiated on the concrete
short-circuit state. -/
theorem errorMessage_write_discipline_witness :
    ∃ u, (runFullCycle witEnv cexStateC8).tasks[0]? = some u ∧
      (u.error_message = cexTaskC8.error_message ∨ AllowedErrWrite u) :=
  errorMessage_write_discipline witEnv cexStateC8 (by simp [UidsDistinct, cexStateC8]) 0 cexTaskC8 rfl

/-! ### Claim theorems for the locator -/

theorem specMatch_iff (uw tw : String) (a dl : Nat) (uf : Bool) (rts : Nat → Option Nat)
    (tx : TxNode) :
    specMatchEdge uw tw a dl uf rts (some tx) = true ↔
      ∃ ts, resolveTxTimestamp uf rts tx = some ts ∧
        txMatches (toLowerStr uw) (toLowerStr tw) a dl tx ts = true := by
  cases hres : resolveTxTimestamp uf rts tx with
  | none => simp [specMatchEdge, hres]
  | some ts => simp [specMatchEdge, txMatches, hres]

theorem scanPage_some_iff (uw tw : String) (a dl : Nat) (uf : Bool)
    (rts : Nat → Option Nat) (edges : List (Option TxNode)) (res : TxNode × Nat) :
    scanPage (toLowerStr uw) (toLowerStr tw) a dl uf rts edges = some res ↔
      specMatchEdge uw tw a dl uf rts (some res.1) = true ∧
      resolveTxTimestamp uf rts res.1 = some res.2 ∧
      ∃ pre post, edges = pre ++ some res.1 :: post ∧
        ∀ e ∈ pre, specMatchEdge uw tw a dl uf rts e = false := by
  induction edges with
  | nil =>
    constructor
    · intro h
      exact absurd h (by simp [scanPage])
    · rintro ⟨_, _, pre, post, heq, _⟩
      exact absurd heq (by simp)
  | cons e rest ih =>
    cases e with
    | none =>
      have hstep : scanPage (toLowerStr uw) (toLowerStr tw) a dl uf rts (none :: rest) =
          scanPage (toLowerStr uw) (toLowerStr tw) a dl uf rts rest := rfl
      rw [hstep, ih]
      constructor
      · rintro ⟨hs, hr, pre, post, heq, hall⟩
        refine ⟨hs, hr, none :: pre, post, by rw [heq]; rfl, ?_⟩
        intro x hx
        rcases List.mem_cons.mp hx with hx1 | hx2
        · rw [hx1]; rfl
        · exact hall x hx2
      · rintro ⟨hs, hr, pre, post, heq, hall⟩
        cases pre with
        | nil =>
          injection heq with h1 _
          exact Option.noConfusion h1
        | cons p pre2 =>
          injection heq with h1 h2
          exact ⟨hs, hr, pre2, post, h2, fun x hx => hall x (List.mem_cons_of_mem _ hx)⟩
    | some tx =>
      cases hres : resolveTxTimestamp uf rts tx with
      | none =>
        have hstep : scanPage (toLowerStr uw) (toLowerStr tw) a dl uf rts (some tx :: rest) =
            scanPage (toLowerStr uw) (toLowerStr tw) a dl uf rts rest := by
          simp [scanPage, hres]
        have hsm : specMatchEdge uw tw a dl uf rts (some tx) = false := by
          simp [specMatchEdge, hres]
        rw [hstep, ih]
        constructor
        · rintro ⟨hs, hr, pre, post, heq, hall⟩
          refine ⟨hs, hr, some tx :: pre, post, by rw [heq]; rfl, ?_⟩
          intro x hx
          rcases List.mem_cons.mp hx with hx1 | hx2
          · rw [hx1]; exact hsm
          · exact hall x hx2
        · rintro ⟨hs, hr, pre, post, heq, hall⟩
          cases pre with
          | nil =>
            injection heq with h1 _
            injection h1 with h1e
            rw [← h1e] at hr
            rw [hres] at hr
            exact Option.noConfusion hr
          | cons p pre2 =>
            injection heq with h1 h2
            exact ⟨hs, hr, pre2, post, h2, fun x hx => hall x (List.mem_cons_of_mem _ hx)⟩
      | some ts =>
        by_cases hm : txMatches (toLowerStr uw) (toLowerStr tw) a dl tx ts = true
        · have hstep : scanPage (toLowerStr uw) (toLowerStr tw) a dl uf rts (some tx :: rest) =
              some (tx, ts) := by
            simp [scanPage, hres, hm]
          have hsm : specMatchEdge uw tw a dl uf rts (some tx) = true := by
            rw [specMatch_iff]
            exact ⟨ts, hres, hm⟩
          rw [hstep]
          constructor
          · intro h
            injection h with he
            rw [← he]
            exact ⟨hsm, hres, [], rest, rfl, fun x hx => absurd hx (List.not_mem_nil x)⟩
          · rintro ⟨hs, hr, pre, post, heq, hall⟩
            cases pre with
            | nil =>
              injection heq with h1 _
              injection h1 with h1e
              rw [← h1e] at hr
              rw [hres] at hr
              injection hr with hre
              exact congrArg some (by rw [h1e, hre])
            | cons p pre2 =>
              injection heq with h1 _
              have hp := hall p (List.mem_cons_self p pre2)
              rw [← h1] at hp
              rw [hsm] at hp
              exact Bool.noConfusion hp
        · have hstep : scanPage (toLowerStr uw) (toLowerStr tw) a dl uf rts (some tx :: rest) =
              scanPage (toLowerStr uw) (toLowerStr tw) a dl uf rts rest := by
            simp [scanPage, hres, hm]
          have hsm : specMatchEdge uw tw a dl uf rts (some tx) = false := by
            refine Bool.eq_false_iff.mpr ?_
            intro htrue
            obtain ⟨ts2, hres2, hm2⟩ := (specMatch_iff uw tw a dl uf rts tx).mp htrue
            rw [hres] at hres2
            injection hres2 with he
            rw [← he] at hm2
            exact hm hm2
          rw [hstep, ih]
          constructor
          · rintro ⟨hs, hr, pre, post, heq, hall⟩
            refine ⟨hs, hr, some tx :: pre, post, by rw [heq]; rfl, ?_⟩
            intro x hx
            rcases List.mem_cons.mp hx with hx1 | hx2
            · rw [hx1]; exact hsm
            · exact hall x hx2
          · rintro ⟨hs, hr, pre, post, heq, hall⟩
            cases pre with
            | nil =>
              injection heq with h1 _
              rw [← h1] at hs
              rw [hsm] at hs
              exact Bool.noConfusion hs
            | cons p pre2 =>
              injection heq with h1 h2
              exact ⟨hs, hr, pre2, post, h2, fun x hx => hall x (List.mem_cons_of_mem _ hx)⟩

/-- C1: a scanned page reports a transaction as the confirming one exactly
when it is the first edge, in original page order, satisfying the
four-clause match (from equals the user wallet case-insensitively, to
equals the target wallet case-insensitively, status is OK, and the
resolved block timestamp lies in the half-open window); and a page on
which the scan finds such a transaction terminates the whole search, the
locator returning exactly that transaction (hash included). -/
theorem locator_match_first (uw tw : String) (a dl : Nat) (uf : Bool)
    (rts : Nat → Option Nat) :
    (∀ (edges : List (Option TxNode)) (res : TxNode × Nat),
      scanPage (toLowerStr uw) (toLowerStr tw) a dl uf rts edges = some res ↔
        specMatchEdge uw tw a dl uf rts (some res.1) = true ∧
        resolveTxTimestamp uf rts res.1 = some res.2 ∧
        ∃ pre post, edges = pre ++ some res.1 :: post ∧
          ∀ e ∈ pre, specMatchEdge uw tw a dl uf rts e = false) ∧
    ∀ (ps : PageSpec) (rest : List PageSpec) (d : PageData) (ufb : Bool)
      (res : TxNode × Nat),
      fetchPage ps.primaryOutcomes ps.fallbackOutcomes = .ok d ufb →
      scanPage (toLowerStr uw) (toLowerStr tw) a dl ufb rts d.edges = some res →
      runLocator (toLowerStr uw) (toLowerStr tw) a dl rts (ps :: rest) =
        some (mkProofTransaction res.1 res.2) := by
  constructor
  · exact scanPage_some_iff uw tw a dl uf rts
  · intro ps rest d ufb res hf hs
    simp only [runLocator, hf, hs]

/-- C1 witness: on a concrete single-page explorer the locator returns
the matching transaction with its hash. -/
theorem locator_match_first_witness :
    runLocator (toLowerStr "u") (toLowerStr "t") 10 100 (fun _ => none) [witPageC1] =
      some (mkProofTransaction witTxC1 50) :=
  (locator_match_first "u" "t" 10 100 false (fun _ => none)).2 witPageC1 []
    ⟨[some witTxC1], none⟩ false (witTxC1, 50) rfl (by decide)

/-- C4 counterexample: a user wallet that is not a syntactically valid
0x-prefixed 40-hex-digit address (its prefix is upper-case 0X) nevertheless
passes the check after internal normalisation: the network search runs and
the check can even confirm — so, on raw inputs, the claim fails. -/
theorem ownership_precondition_counterexample :
    isValidEvmAddress cexUpperWallet = false ∧
    (checkOwnershipAfter cexSearchOracle cexUpperWallet 0 10
      cexTargetWallet).networkCalled = true ∧
    (checkOwnershipAfter cexSearchOracle cexUpperWallet 0 10
      cexTargetWallet).result.isProofConfirmed = true := by
  exact ⟨by decide, by decide, by decide⟩

/-- C4 amended: when the trimmed and lower-cased user wallet is not a valid
address, or the target wallet is not a valid address (the empty target
included), or the window is inverted, the ownership check returns a
not-confirmed result carrying a reason string and performs no network call
(for every search oracle); the check is modelled by a total function, as
the source catches every exception. -/
theorem ownership_precondition_guard
    (search : String → String → Nat → Nat → Option ProofTransaction)
    (walletHash : String) (afterT dlT : Nat) (target : String)
    (hbad : isValidEvmAddress (toLowerStr (trimStr walletHash)) = false ∨
            isValidEvmAddress target = false ∨ dlT ≤ afterT) :
    (checkOwnershipAfter search walletHash afterT dlT target).result.isProofConfirmed
      = false ∧
    ((checkOwnershipAfter search walletHash afterT dlT target).result.error).isSome
      = true ∧
    (checkOwnershipAfter search walletHash afterT dlT target).networkCalled = false := by
  by_cases h1 : (target == "") = true
  · simp [checkOwnershipAfter, h1]
  · rw [Bool.not_eq_true] at h1
    by_cases h2 : isValidEvmAddress (toLowerStr (trimStr walletHash)) = true
    · by_cases h3 : isValidEvmAddress target = true
      · by_cases h4 : dlT ≤ afterT
        · simp [checkOwnershipAfter, h1, h2, h3, h4]
        · exfalso
          rcases hbad with hb | hb | hb
          · rw [h2] at hb
            exact Bool.noConfusion hb
          · rw [h3] at hb
            exact Bool.noConfusion hb
          · exact h4 hb
      · rw [Bool.not_eq_true] at h3
        simp [checkOwnershipAfter, h1, h2, h3]
    · rw [Bool.not_eq_true] at h2
      simp [checkOwnershipAfter, h1, h2]

/-- C4 amended witness: a concrete malformed user wallet yields a
not-confirmed result with a reason and no network call. -/
theorem ownership_precondition_guard_witness :
    (checkOwnershipAfter cexSearchOracle "zz" 0 10 cexTargetWallet).result.isProofConfirmed
      = false ∧
    ((checkOwnershipAfter cexSearchOracle "zz" 0 10 cexTargetWallet).result.error).isSome
      = true ∧
    (checkOwnershipAfter cexSearchOracle "zz" 0 10 cexTargetWallet).networkCalled = false :=
  ownership_precondition_guard cexSearchOracle "zz" 0 10 cexTargetWallet
    (Or.inl (by decide))

theorem primaryLoop_fallback_iff (po : List AttemptOutcome) :
    primaryLoop po = .fallback ↔
      ∃ pre o rest2, po = pre ++ o :: rest2 ∧
        (o = AttemptOutcome.gqlInternalError ∨ o = AttemptOutcome.http500) ∧
        ∀ x ∈ pre, x = AttemptOutcome.gqlOtherError ∨ x = AttemptOutcome.noData ∨
          x = AttemptOutcome.httpOther := by
  induction po with
  | nil =>
    constructor
    · intro h
      exact absurd h (by decide)
    · rintro ⟨pre, o, rest2, heq, _, _⟩
      exact absurd heq (by simp)
  | cons a as ih =>
    cases a with
    | ok d =>
      constructor
      · intro h
        rw [show primaryLoop (AttemptOutcome.ok d :: as) = .gotData d from rfl] at h
        exact PrimaryLoopResult.noConfusion h
      · rintro ⟨pre, o, rest2, heq, ho, hall⟩
        cases pre with
        | nil =>
          injection heq with h1 _
          rw [← h1] at ho
          rcases ho with h | h <;> exact AttemptOutcome.noConfusion h
        | cons p pre2 =>
          injection heq with h1 _
          have hp := hall p (List.mem_cons_self p pre2)
          rw [← h1] at hp
          rcases hp with h | h | h <;> exact AttemptOutcome.noConfusion h
    | gqlInternalError =>
      constructor
      · intro _
        exact ⟨[], .gqlInternalError, as, rfl, Or.inl rfl,
          fun x hx => absurd hx (List.not_mem_nil x)⟩
      · intro _
        rfl
    | http500 =>
      constructor
      · intro _
        exact ⟨[], .http500, as, rfl, Or.inr rfl,
          fun x hx => absurd hx (List.not_mem_nil x)⟩
      · intro _
        rfl
    | gqlOtherError =>
      rw [show primaryLoop (AttemptOutcome.gqlOtherError :: as) = primaryLoop as from rfl, ih]
      constructor
      · rintro ⟨pre, o, rest2, heq, ho, hall⟩
        refine ⟨AttemptOutcome.gqlOtherError :: pre, o, rest2, by rw [heq]; rfl, ho, ?_⟩
        intro x hx
        rcases List.mem_cons.mp hx with h | h
        · rw [h]; exact Or.inl rfl
        · exact hall x h
      · rintro ⟨pre, o, rest2, heq, ho, hall⟩
        cases pre with
        | nil =>
          injection heq with h1 _
          rw [← h1] at ho
          rcases ho with h | h <;> exact AttemptOutcome.noConfusion h
        | cons p pre2 =>
          injection heq with h1 h2
          exact ⟨pre2, o, rest2, h2, ho, fun x hx => hall x (List.mem_cons_of_mem _ hx)⟩
    | noData =>
      rw [show primaryLoop (AttemptOutcome.noData :: as) = primaryLoop as from rfl, ih]
      constructor
      · rintro ⟨pre, o, rest2, heq, ho, hall⟩
        refine ⟨AttemptOutcome.noData :: pre, o, rest2, by rw [heq]; rfl, ho, ?_⟩
        intro x hx
        rcases List.mem_cons.mp hx with h | h
        · rw [h]; exact Or.inr (Or.inl rfl)
        · exact hall x h
      · rintro ⟨pre, o, rest2, heq, ho, hall⟩
        cases pre with
        | nil =>
          injection heq with h1 _
          rw [← h1] at ho
          rcases ho with h | h <;> exact AttemptOutcome.noConfusion h
        | cons p pre2 =>
          injection heq with h1 h2
          exact ⟨pre2, o, rest2, h2, ho, fun x hx => hall x (List.mem_cons_of_mem _ hx)⟩
    | httpOther =>
      rw [show primaryLoop (AttemptOutcome.httpOther :: as) = primaryLoop as from rfl, ih]
      constructor
      · rintro ⟨pre, o, rest2, heq, ho, hall⟩
        refine ⟨AttemptOutcome.httpOther :: pre, o, rest2, by rw [heq]; rfl, ho, ?_⟩
        intro x hx
        rcases List.mem_cons.mp hx with h | h
        · rw [h]; exact Or.inr (Or.inr rfl)
        · exact hall x h
      · rintro ⟨pre, o, rest2, heq, ho, hall⟩
        cases pre with
        | nil =>
          injection heq with h1 _
          rw [← h1] at ho
          rcases ho with h | h <;> exact AttemptOutcome.noConfusion h
        | cons p pre2 =>
          injection heq with h1 h2
          exact ⟨pre2, o, rest2, h2, ho, fun x hx => hall x (List.mem_cons_of_mem _ hx)⟩

/-- C5 counterexample: five primary attempts all failing with a transport
error that is not an HTTP 500 never switch to the fallback: the page fetch
fails outright even though the fallback query would succeed on its very
first attempt. -/
theorem fallback_policy_counterexample :
    fetchPage (List.replicate 5 AttemptOutcome.httpOther) [AttemptOutcome.ok cexPageD]
      = .failed ∧
    fallbackLoop [AttemptOutcome.ok cexPageD] = .gotData cexPageD := by
  exact ⟨rfl, rfl⟩

/-- C5 amended: the switch to the fallback query happens exactly when a
primary attempt fails with a GraphQL internal server error or an HTTP 500
(after any number of otherwise-retried attempts); once the fallback is
triggered, the fetch of the same page succeeds iff the fallback loop
delivers data and fails iff the fallback retries are exhausted; and when
the primary retries are exhausted without such a trigger, the page fetch
fails without the fallback being consulted at all. -/
theorem fetchPage_fallback_policy (po fo : List AttemptOutcome) :
    (primaryLoop po = .fallback ↔
      ∃ pre o rest2, po = pre ++ o :: rest2 ∧
        (o = AttemptOutcome.gqlInternalError ∨ o = AttemptOutcome.http500) ∧
        ∀ x ∈ pre, x = AttemptOutcome.gqlOtherError ∨ x = AttemptOutcome.noData ∨
          x = AttemptOutcome.httpOther) ∧
    (primaryLoop po = .fallback → ∀ d, fallbackLoop fo = .gotData d →
      fetchPage po fo = .ok d true) ∧
    (primaryLoop po = .fallback →
      (fetchPage po fo = .failed ↔ fallbackLoop fo = .exhausted)) ∧
    (primaryLoop po = .exhausted → ∀ fo2, fetchPage po fo2 = .failed) := by
  refine ⟨primaryLoop_fallback_iff po, ?_, ?_, ?_⟩
  · intro hf d hd
    simp only [fetchPage, hf, hd]
  · intro hf
    simp only [fetchPage, hf]
    cases hfb : fallbackLoop fo with
    | gotData d2 => simp
    | exhausted => simp
  · intro hex fo2
    simp only [fetchPage, hex]

/-- C5 amended witness: a single HTTP 500 on the primary switches to the
fallback, which delivers the same page. -/
theorem fetchPage_fallback_policy_witness :
    fetchPage [AttemptOutcome.http500] [AttemptOutcome.ok cexPageD] = .ok cexPageD true :=
  (fetchPage_fallback_policy [AttemptOutcome.http500] [AttemptOutcome.ok cexPageD]).2.1
    rfl cexPageD rfl

/-- C6 counterexample: a primary-path page whose oldest transaction (the
first one, timestamp 5) is strictly below afterTimestamp = 10 still
requests a further page, because the code inspects only the last
transaction of the page (timestamp 100): the early exit as claimed over
the oldest observed transaction fails. -/
theorem pagination_early_exit_counterexample :
    nextCursorDecision 10 false [some cexTxOld, some cexTxNew]
      (some ⟨true, some "c"⟩) = some "c" ∧
    cexTxOld.blockTimestamp = some 5 ∧
    cexTxNew.blockTimestamp = some 100 ∧
    (5 : Nat) < 10 ∧ (5 : Nat) ≤ 100 := by
  exact ⟨by decide, rfl, rfl, by decide, by decide⟩

/-- C6 amended: on a primary-path page the early exit keys on the last
transaction of the page: when that transaction carries a block timestamp
strictly below afterTimestamp, no further page is requested (the locator
stops regardless of what further pages would contain); and on a
fallback-path page the early exit is never applied — the decision is the
reported cursor whenever the explorer reports a next page and a truthy
cursor. -/
theorem pagination_early_exit (afterT : Nat) (tx : TxNode) (ts : Nat) :
    (∀ (edges : List (Option TxNode)) (pinfo : Option PageInfo),
      edges.getLast? = some (some tx) → tx.blockTimestamp = some ts → ts < afterT →
      nextCursorDecision afterT false edges pinfo = none) ∧
    (∀ (edges : List (Option TxNode)) (p : PageInfo),
      nextCursorDecision afterT true edges (some p) =
        if p.hasNextPage && cursorTruthy p.endCursor then p.endCursor else none) ∧
    (∀ (uwL twL : String) (dl : Nat) (rts : Nat → Option Nat) (ps : PageSpec)
      (d : PageData) (rest : List PageSpec),
      fetchPage ps.primaryOutcomes ps.fallbackOutcomes = .ok d false →
      scanPage uwL twL afterT dl false rts d.edges = none →
      d.edges.getLast? = some (some tx) → tx.blockTimestamp = some ts → ts < afterT →
      runLocator uwL twL afterT dl rts (ps :: rest) = none) := by
  have ha : ∀ (edges : List (Option TxNode)) (pinfo : Option PageInfo),
      edges.getLast? = some (some tx) → tx.blockTimestamp = some ts → ts < afterT →
      nextCursorDecision afterT false edges pinfo = none := by
    intro edges pinfo hlast hts hlt
    cases pinfo with
    | none => rfl
    | some p =>
      have hne : edges.isEmpty = false := by
        cases edges with
        | nil => exact absurd hlast (by simp)
        | cons x xs => rfl
      simp only [nextCursorDecision]
      split
      · simp only [hne, Bool.not_false, Bool.and_self, if_true, hlast, hts, hlt]
      · rfl
  refine ⟨ha, ?_, ?_⟩
  · intro edges p
    simp only [nextCursorDecision]
    split
    · simp only [Bool.not_true, Bool.false_and, Bool.false_eq_true, if_false]
    · rfl
  · intro uwL twL dl rts ps d rest hf hs hlast hts hlt
    have hdec := ha d.edges d.pageInfo hlast hts hlt
    simp only [runLocator, hf, hs, hdec]

/-- C6 amended witness: a concrete primary-path page whose last transaction
is older than the window start stops pagination. -/
theorem pagination_early_exit_witness :
    nextCursorDecision 10 false [some cexTxOld] (some ⟨true, some "c"⟩) = none :=
  (pagination_early_exit 10 cexTxOld 5).1 [some cexTxOld] (some ⟨true, some "c"⟩)
    rfl rfl (by decide)

end Zroop
